import Mathlib

/-!
# ELF symbol table printer (`cda-proj1.c`)

A shallow embedding of the program `cda-proj1.c`: the functions `print_err`,
`check_args`, `open_file`, `fetch_section`, `print_symtab` and `main`, over a
model of the ELF descriptor that libelf hands to the program.

Conventions of the embedding

* a byte is a `UInt8`; a buffer (`d_buf`) is a `List UInt8`;
* a C string value is the list of its bytes before the terminating NUL;
* `stdout` is a `String` that the printing functions extend;
* a read outside a buffer, a NULL dereference and a signed overflow are
  undefined behaviour in C: the embedding stops there with `undefined`;
* unsigned machine integers are `Nat`, `(Elf64_Off)-1` is `2 ^ 64 - 1`; the
  `int` counter `slided` is an `Int`, with the conversions of C written out.
-/

namespace CdaProj1

/-! ## Data model -/

/-- A C string value: its bytes before the terminating NUL. -/
abbrev CStr := List UInt8

/-- The bytes of a string literal of the source. -/
def c_str (s : String) : CStr := s.toList.map (fun c => UInt8.ofNat c.toNat)

/-- The value of `-1` once converted to `Elf64_Off` (unsigned 64 bit). -/
def NOT_FOUND : Nat := 2 ^ 64 - 1

/-- The largest value of the C type `int`. -/
def INT_MAX : Nat := 2147483647

/-- Class byte of a 32-bit file, `ELFCLASS32` of `elf.h`. -/
def ELFCLASS32 : Nat := 1

/-- Class byte of a 64-bit file, `ELFCLASS64` of `elf.h`. -/
def ELFCLASS64 : Nat := 2

/-- Section type of a string table, `SHT_STRTAB` of `elf.h`. -/
def SHT_STRTAB : Nat := 3

/-- Section type of a section that occupies no file space, `SHT_NOBITS` of `elf.h`. -/
def SHT_NOBITS : Nat := 8

/-- Modelled from the spec: `sizeof(Elf32_Sym)`, the declaration is in `elf.h`;
the symbol record of a 32-bit file has 16 bytes. -/
def sizeof_Elf32_Sym : Nat := 16

/-- Modelled from the spec: `sizeof(Elf64_Sym)`, the declaration is in `elf.h`;
the symbol record of a 64-bit file has 24 bytes. -/
def sizeof_Elf64_Sym : Nat := 24

/-- The fields of a section header (`GElf_Shdr`) that the program reads. -/
structure GElf_Shdr where
  sh_name : Nat
  sh_type : Nat
  sh_offset : Nat
  sh_size : Nat
deriving DecidableEq

/-- A section descriptor (`Elf_Scn`): its header, and what
`elf_getdata(scn, NULL)` gives for it, the bytes `d_buf` of the section in
memory, or `none` when libelf returns NULL. -/
structure Elf_Scn where
  shdr : GElf_Shdr
  data : Option (List UInt8)
deriving DecidableEq

/-- An ELF descriptor (`Elf *`): the class byte `e_ident[EI_CLASS]`, the
index of the section-header string table as `elf_getshdrstrndx` reports it,
and the section header table in file order, index 0 first. -/
structure Elf where
  ei_class : Nat
  shstrndx : Nat
  sections : List Elf_Scn
deriving DecidableEq

/-- How a run of a printing function ends: normally, with the text written
to `stdout`; in undefined behaviour, after the text written so far; or with
the iteration budget of the embedding used up. -/
inductive Outcome where
  | done (out : String)
  | undefined (out : String)
  | out_of_fuel (out : String)
deriving DecidableEq

/-- How a run of the program ends: `main` returns `status` with `out` written
to `stdout`; or the run reaches undefined behaviour; or the iteration budget
of the embedding is used up. The program never writes to `stderr`. -/
inductive ProcessResult where
  | exit (out : String) (status : Int)
  | undefined (out : String)
  | out_of_fuel (out : String)
deriving DecidableEq

/-! ## Memory reads -/

/-- The NUL-terminated string that starts at the head of `bytes`, as a read
byte by byte sees it; `none` when the bytes end before a NUL. -/
def scan_string : List UInt8 → Option CStr
  | [] => none
  | b :: rest => if b = 0 then some [] else (scan_string rest).map (fun s => b :: s)

/-- The C string at `(char *)d_buf + offset`: the bytes from `offset` up to,
not including, the first NUL. `none` when the read leaves the buffer. -/
def c_string (d_buf : List UInt8) (offset : Nat) : Option CStr :=
  scan_string (d_buf.drop offset)

/-- Value of a byte sequence read as an unsigned integer, least significant
byte first (the byte order of the host). -/
def le_value : List UInt8 → Nat
  | [] => 0
  | b :: rest => b.toNat + 256 * le_value rest

/-- The unsigned integer that the `n` bytes at byte `offset` of a buffer
hold. -/
def field (d_buf : List UInt8) (offset n : Nat) : Nat :=
  le_value ((d_buf.drop offset).take n)

/-- Read of an unsigned integer field of `n` bytes at byte `offset` of a
buffer; `none` when the field is not inside the buffer. -/
def read_le (d_buf : List UInt8) (offset n : Nat) : Option Nat :=
  if offset + n ≤ d_buf.length then some (field d_buf offset n) else none

/-! ## libelf -/

/-- Modelled from the spec: `elf_strptr` of libelf. The section with the given
index holds the string table; the string starts at `offset` and runs to the
first NUL; NULL (`none`) when there is no such section, when it is not of
type `SHT_STRTAB` (a test of the library), when it has no data, or when
there is no NUL before the table ends. -/
def elf_strptr (elf : Elf) (index offset : Nat) : Option CStr :=
  match elf.sections.get? index with
  | none => none
  | some scn =>
    if scn.shdr.sh_type = SHT_STRTAB then
      match scn.data with
      | none => none
      | some d_buf => c_string d_buf offset
    else none

/-- The resolved name of a section: what `elf_strptr` returns for the
`sh_name` of its header in the section-header string table. -/
def section_name (elf : Elf) (scn : Elf_Scn) : Option CStr :=
  elf_strptr elf elf.shstrndx scn.shdr.sh_name

/-- The library function `elf_nextscn` of libelf, as its manual has it: the
sections that it enumerates from `elf_nextscn(elf, NULL)` on are those of
index 1 and up, in file order; the section of index 0, the reserved null
section, is not among them. -/
def elf_nextscn_all (elf : Elf) : List Elf_Scn := elf.sections.drop 1

/-- Modelled from the spec: the scan of `gelf_offscn` (see there) over the
section list. The first section at the file offset that is not empty and not
`SHT_NOBITS`; when all sections at the offset are empty, the last of them
(`best`). -/
def offscn_scan (offset : Nat) : List Elf_Scn → Option Elf_Scn → Option Elf_Scn
  | [], best => best
  | scn :: rest, best =>
    if scn.shdr.sh_offset = offset then
      if scn.shdr.sh_size ≠ 0 ∧ scn.shdr.sh_type ≠ SHT_NOBITS then some scn
      else offscn_scan offset rest (some scn)
    else offscn_scan offset rest best

/-- Modelled from the spec: `gelf_offscn` of libelf, which is not among the
sources: the lookup of a section by the `file_offset` of its header. As in
the library, an empty section is passed over when a later section has the
same offset. NULL (`none`) when no section header has the offset. (For a
32-bit file the library first tests that the offset is below `2 ^ 32`, as
the offsets of 32-bit section headers are.) -/
def gelf_offscn (elf : Elf) (offset : Nat) : Option Elf_Scn :=
  offscn_scan offset elf.sections none

/-- Modelled from the spec: the macros `ELF32_ST_BIND` and `ELF64_ST_BIND` of
`elf.h`, `((unsigned char) (val)) >> 4`: the high nibble of the info byte. -/
def ELF_ST_BIND (val : Nat) : Nat := (val % 256) >>> 4

/-- Modelled from the spec: the macros `ELF32_ST_TYPE` and `ELF64_ST_TYPE` of
`elf.h`, `(val) & 0xf`: the low nibble of the info byte. -/
def ELF_ST_TYPE (val : Nat) : Nat := val &&& 0xf

/-! ## printf conversions -/

/-- The conversion `%0<width>x` of `printf`. It takes an `unsigned int`: of a
64-bit argument the low 32 bits are converted (the argument is passed in a
64-bit slot, as on x86-64; the C standard does not define the mismatch).
Lowercase hexadecimal, padded with zeros on the left to `width` characters. -/
def fmt_x (width : Nat) (arg : Nat) : String :=
  let digits := Nat.toDigits 16 (arg % 2 ^ 32)
  String.mk (List.replicate (width - digits.length) '0' ++ digits)

/-- The conversion `%u` of `printf`. It takes an `unsigned int`: of a 64-bit
argument the low 32 bits are converted, as for `fmt_x`. Decimal. -/
def fmt_u (arg : Nat) : String := String.mk (Nat.toDigits 10 (arg % 2 ^ 32))

/-- The conversion `%s` of `printf`: the bytes of the string. -/
def fmt_s (s : CStr) : String := String.mk (s.map (fun b => Char.ofNat b.toNat))

/-- The header line of the report, newline included. -/
def HEADER : String := "      Value       Bind Type Size           Name\n"

/-- The text of `printf("%016x    %u    %u    %u    %s   \n", ...)`. -/
def line64 (st_value st_info st_size : Nat) (name : CStr) : String :=
  fmt_x 16 st_value ++ "    " ++ fmt_u (ELF_ST_BIND st_info) ++ "    " ++
    fmt_u (ELF_ST_TYPE st_info) ++ "    " ++ fmt_u st_size ++ "    " ++ fmt_s name ++ "   \n"

/-- The text of `printf("%08x    %u    %u    %u    %s   \n", ...)`. -/
def line32 (st_value st_info st_size : Nat) (name : CStr) : String :=
  fmt_x 8 st_value ++ "    " ++ fmt_u (ELF_ST_BIND st_info) ++ "    " ++
    fmt_u (ELF_ST_TYPE st_info) ++ "    " ++ fmt_u st_size ++ "    " ++ fmt_s name ++ "   \n"

/-! ## The program -/

/-- The function `print_err`: `printf(msg, stderr)`. The format `msg` (no
call passes one with a conversion) is written to `stdout`; the stream is an
argument that `printf` does not use. -/
def print_err (msg : String) (out : String) : String := out ++ msg

/-- The function `check_args`. -/
def check_args (argc : Int) (out : String) : Bool × String :=
  if argc < 2 then (false, print_err "Parameter must be elf file!\n" out)
  else (true, out)

/-- The function `open_file`; `fd` is what `open(name, O_RDONLY, 0)` returns. -/
def open_file (fd : Int) (out : String) : Int × String :=
  if fd = -1 then (fd, print_err "Cannot open given elf file!\n" out)
  else (fd, out)

/-- The `while` loop of `fetch_section` over the sections still to visit.
`none`: undefined behaviour, `strcmp` on the NULL that `elf_strptr` returned.
`some none`: the loop ended with `found` false. `some (some o)`: the loop
left with `found` true and `shdr->sh_offset = o`. -/
def fetch_section_loop (iter : Elf) (stringIndex : Nat) (wantedSection : CStr) :
    List Elf_Scn → Option (Option Nat)
  | [] => some none
  | section_ :: rest =>
    match elf_strptr iter stringIndex section_.shdr.sh_name with
    | none => none
    | some sectionName =>
      if sectionName = wantedSection then some (some section_.shdr.sh_offset)
      else fetch_section_loop iter stringIndex wantedSection rest

/-- The function `fetch_section`. `wantedSection` is `none` for a NULL
pointer. The result is `none` when the run reaches undefined behaviour. -/
def fetch_section (input : Elf) (wantedSection : Option CStr) : Option Nat :=
  match wantedSection with
  | none => some NOT_FOUND
  | some wanted =>
    match fetch_section_loop input input.shstrndx wanted (elf_nextscn_all input) with
    | none => none
    | some (some sh_offset) => some sh_offset
    | some none => some NOT_FOUND

/-- One pass of the body of the 64-bit loop for the symbol at `index`, up to
the `printf`: the text it writes, or `none` when a read is undefined (NULL
data, or a read outside a buffer). `st_name` is at byte 0 of the record,
`st_info` at byte 4, `st_value` at byte 8 and `st_size` at byte 16; the
fields other than `st_name` are read only when the name is not empty. -/
def sym_step64 (symtabData stringtabData : Option (List UInt8)) (index : Nat) :
    Option String :=
  match symtabData, stringtabData with
  | some symbuf, some strbuf =>
    match read_le symbuf (sizeof_Elf64_Sym * index) 4 with
    | none => none
    | some st_name =>
      match c_string strbuf st_name with
      | none => none
      | some name =>
        if name ≠ [] then
          match read_le symbuf (sizeof_Elf64_Sym * index + 8) 8,
                read_le symbuf (sizeof_Elf64_Sym * index + 4) 1,
                read_le symbuf (sizeof_Elf64_Sym * index + 16) 8 with
          | some st_value, some st_info, some st_size =>
            some (line64 st_value st_info st_size name)
          | _, _, _ => none
        else some ""
  | _, _ => none

/-- One pass of the body of the 32-bit loop for the symbol at `index`.
`st_name` is at byte 0 of the record, `st_value` at byte 4, `st_size` at
byte 8 and `st_info` at byte 12. -/
def sym_step32 (symtabData stringtabData : Option (List UInt8)) (index : Nat) :
    Option String :=
  match symtabData, stringtabData with
  | some symbuf, some strbuf =>
    match read_le symbuf (sizeof_Elf32_Sym * index) 4 with
    | none => none
    | some st_name =>
      match c_string strbuf st_name with
      | none => none
      | some name =>
        if name ≠ [] then
          match read_le symbuf (sizeof_Elf32_Sym * index + 4) 4,
                read_le symbuf (sizeof_Elf32_Sym * index + 12) 1,
                read_le symbuf (sizeof_Elf32_Sym * index + 8) 4 with
          | some st_value, some st_info, some st_size =>
            some (line32 st_value st_info st_size name)
          | _, _, _ => none
        else some ""
  | _, _ => none

/-- Conversion of an `int` to the 64-bit unsigned type of `sh_size` and of
`sizeof`: the value modulo `2 ^ 64`. -/
def int_to_ulong (v : Int) : Nat := (v % 2 ^ 64).toNat

/-- Conversion of a 64-bit unsigned value to `int`. The C standard leaves the
result to the implementation when the value exceeds `INT_MAX`; gcc and clang
reduce it modulo `2 ^ 32` to the range of `int`. -/
def ulong_to_int (v : Nat) : Int :=
  if v % 2 ^ 32 ≤ INT_MAX then ((v % 2 ^ 32 : Nat) : Int)
  else ((v % 2 ^ 32 : Nat) : Int) - 2 ^ 32

/-- The loop `while(slided < symtabHeader.sh_size)` of `print_symtab`, with
`step` one pass of its body. `slided` and `index` are of type `int`. The
condition compares at 64 bits unsigned. `index++` beyond `INT_MAX` is a
signed overflow, undefined. `slided += sizeof(...)` adds at 64 bits
unsigned and converts the sum to `int`. The first argument bounds the number
of passes. -/
def symtab_loop (sh_size recsize : Nat) (step : Nat → Option String) :
    Nat → Int → Nat → String → Outcome
  | 0, _, _, out => Outcome.out_of_fuel out
  | fuel + 1, slided, index, out =>
    if int_to_ulong slided < sh_size then
      match step index with
      | none => Outcome.undefined out
      | some text =>
        if index + 1 ≤ INT_MAX then
          symtab_loop sh_size recsize step fuel
            (ulong_to_int ((int_to_ulong slided + recsize) % 2 ^ 64)) (index + 1) (out ++ text)
        else Outcome.undefined (out ++ text)
    else Outcome.done out

/-- The two branches of `print_symtab` on the class byte, given the size in
the symbol table header and the data of the two sections. -/
def print_records (ei_class sh_size : Nat) (symtabData stringtabData : Option (List UInt8))
    (out : String) : Outcome :=
  if ei_class = ELFCLASS64 then
    symtab_loop sh_size sizeof_Elf64_Sym (sym_step64 symtabData stringtabData)
      (sh_size + 1) 0 0 (out ++ HEADER)
  else if ei_class = ELFCLASS32 then
    symtab_loop sh_size sizeof_Elf32_Sym (sym_step32 symtabData stringtabData)
      (sh_size + 1) 0 0 (out ++ HEADER)
  else Outcome.done out

/-- The function `print_symtab`. The two sections are looked up by file
offset with `gelf_offscn`. When the lookup of the symbol table gives NULL,
`gelf_getshdr` leaves `symtabHeader` unset and the loop condition reads it:
undefined, after the header line. `elf_getdata` of a NULL section is NULL. -/
def print_symtab (input : Elf) (symtabOffset stringtabIndex : Nat) (out : String) :
    Outcome :=
  let symtab := gelf_offscn input symtabOffset
  let strtab := gelf_offscn input stringtabIndex
  let symtabData := symtab.bind (fun scn => scn.data)
  let stringtabData := strtab.bind (fun scn => scn.data)
  match symtab with
  | some scn => print_records input.ei_class scn.shdr.sh_size symtabData stringtabData out
  | none =>
    if input.ei_class = ELFCLASS64 ∨ input.ei_class = ELFCLASS32 then
      Outcome.undefined (out ++ HEADER)
    else Outcome.done out

/-- The function `main`. `argc` is the argument count, `fd` what `open`
returns for `argv[1]`, `elfInput` what `elf_begin` returns (`none` for
NULL) and `errmsg` the text of `elf_errmsg(-1)`. -/
def main (argc : Int) (fd : Int) (elfInput : Option Elf) (errmsg : String) : ProcessResult :=
  match check_args argc "" with
  | (false, out) => ProcessResult.exit out (-1)
  | (true, out) =>
    match open_file fd out with
    | (inputfd, out) =>
      if inputfd = -1 then ProcessResult.exit out (-1)
      else
        match elfInput with
        | none =>
          ProcessResult.exit
            (print_err "Cannot open elf file through libelf!\n" (out ++ errmsg ++ "\n")) (-1)
        | some elf =>
          match fetch_section elf (some (c_str ".strtab")) with
          | none => ProcessResult.undefined out
          | some strtabIndex =>
            if strtabIndex = NOT_FOUND then
              ProcessResult.exit (print_err "Strtab section has 0 records." out) (-1)
            else
              match fetch_section elf (some (c_str ".symtab")) with
              | none => ProcessResult.undefined out
              | some symtabOffset =>
                if symtabOffset = NOT_FOUND then
                  ProcessResult.exit (print_err "Symtab section has 0 records.\n" out) 0
                else
                  match print_symtab elf symtabOffset strtabIndex out with
                  | Outcome.done out => ProcessResult.exit out 0
                  | Outcome.undefined out => ProcessResult.undefined out
                  | Outcome.out_of_fuel out => ProcessResult.out_of_fuel out

/-! ## Decoded records

The notions the statements below are written in: the record at an index of a
symbol table, the line of the report for a record, and the concatenation of
the lines of a list of records. -/

/-- The fields of a symbol record that the program prints. -/
structure Sym where
  st_name : Nat
  st_info : Nat
  st_value : Nat
  st_size : Nat
deriving DecidableEq

/-- The `Elf64_Sym` record number `index` of a symbol table. -/
def Elf64_Sym_at (symbuf : List UInt8) (index : Nat) : Sym :=
  { st_name := field symbuf (sizeof_Elf64_Sym * index) 4,
    st_info := field symbuf (sizeof_Elf64_Sym * index + 4) 1,
    st_value := field symbuf (sizeof_Elf64_Sym * index + 8) 8,
    st_size := field symbuf (sizeof_Elf64_Sym * index + 16) 8 }

/-- The `Elf32_Sym` record number `index` of a symbol table. -/
def Elf32_Sym_at (symbuf : List UInt8) (index : Nat) : Sym :=
  { st_name := field symbuf (sizeof_Elf32_Sym * index) 4,
    st_info := field symbuf (sizeof_Elf32_Sym * index + 12) 1,
    st_value := field symbuf (sizeof_Elf32_Sym * index + 4) 4,
    st_size := field symbuf (sizeof_Elf32_Sym * index + 8) 4 }

/-- Size of a symbol record in a file of class `cls`. -/
def record_size (cls : Nat) : Nat :=
  if cls = ELFCLASS64 then sizeof_Elf64_Sym else sizeof_Elf32_Sym

/-- The record number `index` of a symbol table in a file of class `cls`. -/
def sym_at (cls : Nat) (symbuf : List UInt8) (index : Nat) : Sym :=
  if cls = ELFCLASS64 then Elf64_Sym_at symbuf index else Elf32_Sym_at symbuf index

/-- The line of the report for a record with its resolved name. -/
def sym_line (cls : Nat) (sym : Sym) (name : CStr) : String :=
  if cls = ELFCLASS64 then line64 sym.st_value sym.st_info sym.st_size name
  else line32 sym.st_value sym.st_info sym.st_size name

/-- Concatenation of the texts of a list, in order. -/
def concat_all : List String → String
  | [] => ""
  | s :: rest => s ++ concat_all rest

/-- Lowercase hexadecimal digits of a number, padded with zeros on the left
to `width` characters. -/
def hex_padded (width v : Nat) : String :=
  String.mk (List.replicate (width - (Nat.toDigits 16 v).length) '0' ++ Nat.toDigits 16 v)

/-- Decimal digits of a number. -/
def decimal (v : Nat) : String := String.mk (Nat.toDigits 10 v)

/-! ## Sample images -/

/-- The bytes of a string table: each string followed by one NUL. -/
def build_strtab : List CStr → List UInt8
  | [] => []
  | s :: rest => s ++ 0 :: build_strtab rest

/-- The offset in `build_strtab strs` at which string number `k` starts. -/
def start_offset (strs : List CStr) (k : Nat) : Nat :=
  ((strs.take k).map (fun s => s.length + 1)).sum

/-- The `n` bytes of an unsigned integer, least significant byte first. -/
def le_bytes : Nat → Nat → List UInt8
  | 0, _ => []
  | n + 1, v => UInt8.ofNat (v % 256) :: le_bytes n (v / 256)

/-- The 24 bytes of an `Elf64_Sym` record. -/
def Elf64_Sym_bytes (st_name st_info st_other st_shndx st_value st_size : Nat) : List UInt8 :=
  le_bytes 4 st_name ++ le_bytes 1 st_info ++ le_bytes 1 st_other ++ le_bytes 2 st_shndx ++
    le_bytes 8 st_value ++ le_bytes 8 st_size

/-- The 16 bytes of an `Elf32_Sym` record. -/
def Elf32_Sym_bytes (st_name st_value st_size st_info st_other st_shndx : Nat) : List UInt8 :=
  le_bytes 4 st_name ++ le_bytes 4 st_value ++ le_bytes 4 st_size ++ le_bytes 1 st_info ++
    le_bytes 1 st_other ++ le_bytes 2 st_shndx

/-- Section-header string table of the sample images:
`"\0.symtab\0.strtab\0.shstrtab\0.text\0"`. -/
def sample_shstrtab : List UInt8 :=
  build_strtab [[], c_str ".symtab", c_str ".strtab", c_str ".shstrtab", c_str ".text"]

/-- The section of index 0: the reserved null section. -/
def null_scn : Elf_Scn := ⟨⟨0, 0, 0, 0⟩, some []⟩

/-- The `.shstrtab` section of the sample images, at file offset 4096. -/
def shstrtab_scn : Elf_Scn := ⟨⟨17, 3, 4096, sample_shstrtab.length⟩, some sample_shstrtab⟩

/-- A sample image: class `cls`, sections null, `.symtab` (at file offset
64, with the given header size and data), `.strtab` (at 2048, with the given
bytes) and `.shstrtab`. -/
def sample_elf (cls sh_size : Nat) (symdata : Option (List UInt8)) (strbuf : List UInt8) : Elf :=
  { ei_class := cls, shstrndx := 3,
    sections := [null_scn, ⟨⟨1, 2, 64, sh_size⟩, symdata⟩,
                 ⟨⟨9, 3, 2048, strbuf.length⟩, some strbuf⟩, shstrtab_scn] }

/-- The symbol table of the end-to-end scenario: a record named `foo` (name
offset 1, value `0x401000`, info `0x02`, size 8) and a record with the
empty name. -/
def foo_symtab : List UInt8 :=
  Elf64_Sym_bytes 1 0x02 0 1 0x401000 8 ++ Elf64_Sym_bytes 0 0 0 0 0 0

/-- The string table of the end-to-end scenario, `"\0foo\0"`. -/
def foo_strtab : List UInt8 := build_strtab [[], c_str "foo"]

/-- The `.strtab` section of the sample images, at file offset 2048. -/
def strtab_scn (strbuf : List UInt8) : Elf_Scn := ⟨⟨9, 3, 2048, strbuf.length⟩, some strbuf⟩

/-- An image with a `.strtab` section and no `.symtab` section. -/
def no_symtab_elf : Elf :=
  { ei_class := ELFCLASS64, shstrndx := 2,
    sections := [null_scn, strtab_scn foo_strtab, shstrtab_scn] }

/-- An image whose first section has a name offset outside the
section-header string table, followed by `.symtab`, `.strtab`, `.shstrtab`. -/
def corrupt_name_elf : Elf :=
  { ei_class := ELFCLASS64, shstrndx := 4,
    sections := [null_scn, ⟨⟨1000, 1, 32, 8⟩, some [0, 0, 0, 0, 0, 0, 0, 0]⟩,
                 ⟨⟨1, 2, 64, 48⟩, some foo_symtab⟩, strtab_scn foo_strtab, shstrtab_scn] }

/-- An image with two sections named `.symtab`, at file offsets 64 and 128. -/
def duplicate_symtab_elf : Elf :=
  { ei_class := ELFCLASS64, shstrndx := 4,
    sections := [null_scn, ⟨⟨1, 2, 64, 48⟩, some foo_symtab⟩,
                 ⟨⟨1, 2, 128, 24⟩, some (Elf64_Sym_bytes 0 0 0 0 0 0)⟩,
                 strtab_scn foo_strtab, shstrtab_scn] }

/-- The `.text` section of `shared_offset_elf`: four bytes at file offset 64. -/
def text_scn : Elf_Scn := ⟨⟨27, 1, 64, 4⟩, some [0, 0, 0, 0]⟩

/-- The `.symtab` section of `shared_offset_elf`, also at file offset 64. -/
def symtab_scn : Elf_Scn := ⟨⟨1, 2, 64, 48⟩, some foo_symtab⟩

/-- An image in which `.text` and `.symtab` have the same file offset. -/
def shared_offset_elf : Elf :=
  { ei_class := ELFCLASS64, shstrndx := 4,
    sections := [null_scn, text_scn, symtab_scn, strtab_scn foo_strtab, shstrtab_scn] }

/-- A 64-bit symbol table of 89478487 records (2147483688 bytes): 89478486
records of zero bytes, then a record named `foo` (name offset 1). -/
def overflow_symtab : List UInt8 :=
  List.replicate 2147483664 0 ++ Elf64_Sym_bytes 1 0x12 0 1 0x401000 8

/-- Section type of a section of plain bytes, `SHT_PROGBITS` of `elf.h`. -/
def SHT_PROGBITS : Nat := 1

/-- A sample image like `sample_elf` whose section named `.symtab` has the
type `SHT_PROGBITS`: libelf hands out the bytes of such a section whatever
its size. -/
def raw_symtab_elf (cls sh_size : Nat) (symdata : Option (List UInt8)) (strbuf : List UInt8) :
    Elf :=
  { ei_class := cls, shstrndx := 3,
    sections := [null_scn, ⟨⟨1, SHT_PROGBITS, 64, sh_size⟩, symdata⟩,
                 ⟨⟨9, 3, 2048, strbuf.length⟩, some strbuf⟩, shstrtab_scn] }

/-- A 64-bit record named `foo` with a value and a size above `2 ^ 32`. -/
def wide_symtab : List UInt8 := Elf64_Sym_bytes 1 0x12 0 1 0x100401000 0x100000008

/-! # Theorems -/

/-! ## The loop of `print_symtab` -/

theorem concat_all_filter (p : Nat → Prop) [DecidablePred p] (f : Nat → String) (l : List Nat) :
    concat_all (l.map (fun i => if p i then f i else "")) =
      concat_all ((l.filter (fun i => decide (p i))).map f) := by
  induction l with
  | nil => rfl
  | cons a l ih =>
    by_cases h : p a
    · simp [concat_all, List.filter_cons, h, ih]
    · simp [concat_all, List.filter_cons, h, ih]

theorem concat_all_empty (l : List Nat) : concat_all (l.map (fun _ => "")) = "" := by
  induction l with
  | nil => rfl
  | cons a l ih =>
    show "" ++ concat_all (l.map (fun _ => "")) = ""
    rw [ih]; rfl

theorem int_to_ulong_natCast (v : Nat) (h : v < 2 ^ 64) : int_to_ulong (v : Int) = v := by
  unfold int_to_ulong
  omega

theorem ulong_to_int_small (v : Nat) (h : v ≤ INT_MAX) : ulong_to_int v = (v : Int) := by
  unfold ulong_to_int
  unfold INT_MAX at h ⊢
  have h1 : v % 2 ^ 32 = v := Nat.mod_eq_of_lt (by omega)
  rw [h1, if_pos h]

/-- The counter after a pass, while it stays in the range of `int`. -/
theorem slided_next (v recsize : Nat) (h : v + recsize ≤ INT_MAX) :
    ulong_to_int ((int_to_ulong (v : Int) + recsize) % 2 ^ 64) = ((v + recsize : Nat) : Int) := by
  unfold INT_MAX at h
  rw [int_to_ulong_natCast v (by omega), Nat.mod_eq_of_lt (by omega),
    ulong_to_int_small _ (by unfold INT_MAX; omega)]

/-- The counter after the pass at which it leaves the range of `int`: as a
64-bit unsigned value it is at least `2 ^ 64 - 2 ^ 31`. -/
theorem slided_wrapped (v recsize : Nat) (hv : v ≤ INT_MAX) (h : INT_MAX < v + recsize)
    (hr : recsize ≤ INT_MAX) :
    2 ^ 64 - 2 ^ 31 ≤
      int_to_ulong (ulong_to_int ((int_to_ulong (v : Int) + recsize) % 2 ^ 64)) := by
  unfold INT_MAX at hv h hr
  rw [int_to_ulong_natCast v (by omega), Nat.mod_eq_of_lt (by omega)]
  unfold ulong_to_int int_to_ulong INT_MAX
  have h1 : (v + recsize) % 2 ^ 32 = v + recsize := Nat.mod_eq_of_lt (by omega)
  rw [h1, if_neg (by omega)]
  omega

/-- The loop makes `n` passes when the body is defined at each of them, the
condition holds before each and the counters stay in the range of `int`. -/
theorem symtab_loop_passes (sh_size recsize : Nat) (step : Nat → Option String)
    (t : Nat → String) :
    ∀ (n k fuel : Nat) (out : String),
      (∀ i, k ≤ i → i < k + n → step i = some (t i)) →
      recsize * (k + n) ≤ INT_MAX → k + n ≤ INT_MAX →
      (∀ i, i < k + n → recsize * i < sh_size) →
      symtab_loop sh_size recsize step (fuel + n) ((recsize * k : Nat) : Int) k out =
        symtab_loop sh_size recsize step fuel ((recsize * (k + n) : Nat) : Int) (k + n)
          (out ++ concat_all ((List.range' k n).map t)) := by
  intro n
  induction n with
  | zero => intro k fuel out _ _ _ _; simp [concat_all]
  | succ n ih =>
    intro k fuel out hstep hmax hidx hlt
    have h3 : recsize * k + recsize ≤ INT_MAX := by
      have h4 : recsize * (k + 1) ≤ recsize * (k + (n + 1)) := Nat.mul_le_mul_left _ (by omega)
      have e : recsize * (k + 1) = recsize * k + recsize := by ring
      omega
    have h0 : int_to_ulong ((recsize * k : Nat) : Int) = recsize * k :=
      int_to_ulong_natCast _ (by unfold INT_MAX at h3; omega)
    have h1 : int_to_ulong ((recsize * k : Nat) : Int) < sh_size := by
      rw [h0]; exact hlt k (by omega)
    have h2 : step k = some (t k) := hstep k (le_refl _) (by omega)
    have h5 : k + 1 ≤ INT_MAX := by omega
    have e : fuel + (n + 1) = (fuel + n) + 1 := by omega
    rw [e, symtab_loop]
    simp only [h1, if_true, h2, h5]
    rw [slided_next _ _ h3]
    have e2 : recsize * k + recsize = recsize * (k + 1) := by ring
    rw [e2, ih (k + 1) fuel (out ++ t k) (fun i hi hi2 => hstep i (by omega) (by omega))
      (by rw [show k + 1 + n = k + (n + 1) by omega]; exact hmax) (by omega)
      (fun i hi => hlt i (by omega))]
    rw [show k + 1 + n = k + (n + 1) by omega]
    simp [List.range', concat_all, String.append_assoc]

/-- A table of `n` whole records within the range of `int`: the loop ends
normally after the texts of the `n` passes. -/
theorem symtab_loop_done (recsize : Nat) (step : Nat → Option String) (t : Nat → String)
    (n : Nat) (out : String) (hrec : 0 < recsize)
    (hstep : ∀ i, i < n → step i = some (t i)) (hmax : recsize * n ≤ INT_MAX) :
    symtab_loop (recsize * n) recsize step (recsize * n + 1) 0 0 out =
      Outcome.done (out ++ concat_all ((List.range n).map t)) := by
  have hn : n ≤ recsize * n := Nat.le_mul_of_pos_left n hrec
  have e : recsize * n + 1 = (recsize * n - n + 1) + n := by omega
  have h := symtab_loop_passes (recsize * n) recsize step t n 0 (recsize * n - n + 1) out
    (fun i _ hi => hstep i (by omega)) (by simpa using hmax) (by omega)
    (fun i hi => Nat.mul_lt_mul_of_pos_left (by omega) hrec)
  rw [e]
  simp only [Nat.mul_zero, Nat.zero_add, Nat.cast_zero] at h
  rw [h, symtab_loop]
  have h0 : int_to_ulong ((recsize * n : Nat) : Int) = recsize * n :=
    int_to_ulong_natCast _ (by unfold INT_MAX at hmax; omega)
  rw [h0, if_neg (lt_irrefl _), List.range_eq_range']

/-- The loop ends in undefined behaviour when the body is undefined at a pass
that the loop reaches with its counters in the range of `int`. -/
theorem symtab_loop_undefined (sh_size recsize : Nat) (step : Nat → Option String) :
    ∀ (n k fuel : Nat) (out : String),
      n < fuel → recsize * (k + n) < sh_size → recsize * (k + n) ≤ INT_MAX →
      k + n ≤ INT_MAX → step (k + n) = none →
      ∃ o, symtab_loop sh_size recsize step fuel ((recsize * k : Nat) : Int) k out =
        Outcome.undefined o := by
  intro n
  induction n with
  | zero =>
    intro k fuel out hf hlt hmax _ hnone
    obtain ⟨f, rfl⟩ : ∃ f, fuel = f + 1 := ⟨fuel - 1, by omega⟩
    simp only [Nat.add_zero] at hlt hnone hmax
    rw [symtab_loop, int_to_ulong_natCast _ (by unfold INT_MAX at hmax; omega)]
    simp [hlt, hnone]
  | succ n ih =>
    intro k fuel out hf hlt hmax hidx hnone
    obtain ⟨f, rfl⟩ : ∃ f, fuel = f + 1 := ⟨fuel - 1, by omega⟩
    have h3 : recsize * k + recsize ≤ INT_MAX := by
      have h4 : recsize * (k + 1) ≤ recsize * (k + (n + 1)) := Nat.mul_le_mul_left _ (by omega)
      have e : recsize * (k + 1) = recsize * k + recsize := by ring
      omega
    have h1 : recsize * k < sh_size :=
      lt_of_le_of_lt (Nat.mul_le_mul_left _ (by omega)) hlt
    rw [symtab_loop, int_to_ulong_natCast _ (by unfold INT_MAX at h3; omega)]
    simp only [h1, if_true]
    cases hs : step k with
    | none => exact ⟨out, rfl⟩
    | some text =>
      have h5 : k + 1 ≤ INT_MAX := by omega
      simp only [h5, if_true]
      have h6 := slided_next (recsize * k) recsize h3
      rw [int_to_ulong_natCast _ (by unfold INT_MAX at h3; omega)] at h6
      rw [h6]
      have e2 : recsize * k + recsize = recsize * (k + 1) := by ring
      rw [e2]
      exact ih (k + 1) f (out ++ text) (by omega)
        (by rw [show k + 1 + n = k + (n + 1) by omega]; exact hlt)
        (by rw [show k + 1 + n = k + (n + 1) by omega]; exact hmax)
        (by omega)
        (by rw [show k + 1 + n = k + (n + 1) by omega]; exact hnone)

/-- One pass of the 64-bit body on a record that lies inside the table and
whose name resolves: the line of the record, or nothing for the empty name. -/
theorem sym_step64_eq (symbuf strbuf : List UInt8) (index : Nat) (name : CStr)
    (hin : sizeof_Elf64_Sym * index + sizeof_Elf64_Sym ≤ symbuf.length)
    (hname : c_string strbuf (Elf64_Sym_at symbuf index).st_name = some name) :
    sym_step64 (some symbuf) (some strbuf) index =
      some (if name ≠ [] then sym_line ELFCLASS64 (Elf64_Sym_at symbuf index) name else "") := by
  simp only [sizeof_Elf64_Sym] at hin
  simp only [Elf64_Sym_at] at hname
  have h1 : sizeof_Elf64_Sym * index + 4 ≤ symbuf.length := by simp only [sizeof_Elf64_Sym]; omega
  have h2 : sizeof_Elf64_Sym * index + 8 + 8 ≤ symbuf.length := by
    simp only [sizeof_Elf64_Sym]; omega
  have h3 : sizeof_Elf64_Sym * index + 4 + 1 ≤ symbuf.length := by
    simp only [sizeof_Elf64_Sym]; omega
  have h4 : sizeof_Elf64_Sym * index + 16 + 8 ≤ symbuf.length := by
    simp only [sizeof_Elf64_Sym]; omega
  simp only [sym_step64, read_le, h1, h2, h3, h4, if_true, hname, sym_line, Elf64_Sym_at]
  by_cases hne : name = [] <;> simp [hne]

/-- One pass of the 32-bit body on a record that lies inside the table and
whose name resolves. -/
theorem sym_step32_eq (symbuf strbuf : List UInt8) (index : Nat) (name : CStr)
    (hin : sizeof_Elf32_Sym * index + sizeof_Elf32_Sym ≤ symbuf.length)
    (hname : c_string strbuf (Elf32_Sym_at symbuf index).st_name = some name) :
    sym_step32 (some symbuf) (some strbuf) index =
      some (if name ≠ [] then sym_line ELFCLASS32 (Elf32_Sym_at symbuf index) name else "") := by
  simp only [sizeof_Elf32_Sym] at hin
  simp only [Elf32_Sym_at] at hname
  have h1 : sizeof_Elf32_Sym * index + 4 ≤ symbuf.length := by simp only [sizeof_Elf32_Sym]; omega
  have h2 : sizeof_Elf32_Sym * index + 4 + 4 ≤ symbuf.length := by
    simp only [sizeof_Elf32_Sym]; omega
  have h3 : sizeof_Elf32_Sym * index + 12 + 1 ≤ symbuf.length := by
    simp only [sizeof_Elf32_Sym]; omega
  have h4 : sizeof_Elf32_Sym * index + 8 + 4 ≤ symbuf.length := by
    simp only [sizeof_Elf32_Sym]; omega
  simp only [sym_step32, read_le, h1, h2, h3, h4, if_true, hname, sym_line, Elf32_Sym_at]
  by_cases hne : name = [] <;> simp [hne, ELFCLASS32, ELFCLASS64]

/-- On a table of `n` whole records of at most `INT_MAX` bytes in which the
name of each record resolves, the branches of `print_symtab` write the
header and then one line for each record with a name that is not empty, in
table order, and nothing for a record with the empty name. -/
theorem print_records_named_lines (cls n : Nat) (symbuf strbuf : List UInt8)
    (names : Nat → CStr) (out : String)
    (hcls : cls = ELFCLASS64 ∨ cls = ELFCLASS32)
    (hbuf : symbuf.length = record_size cls * n)
    (hint : record_size cls * n ≤ INT_MAX)
    (hnames : ∀ i, i < n → c_string strbuf (sym_at cls symbuf i).st_name = some (names i)) :
    print_records cls (record_size cls * n) (some symbuf) (some strbuf) out =
      Outcome.done (out ++ HEADER ++ concat_all
        (((List.range n).filter (fun i => decide (names i ≠ []))).map
          (fun i => sym_line cls (sym_at cls symbuf i) (names i)))) := by
  rcases hcls with h | h
  · subst h
    simp only [record_size, sym_at, if_true] at hbuf hint hnames ⊢
    simp only [print_records, if_true]
    rw [symtab_loop_done sizeof_Elf64_Sym _
      (fun i => if names i ≠ [] then sym_line ELFCLASS64 (Elf64_Sym_at symbuf i) (names i) else "")
      n _ (by decide) _ hint]
    · rw [concat_all_filter (fun i => names i ≠ [])]
    · intro i hi
      apply sym_step64_eq _ _ _ _ _ (hnames i hi)
      rw [hbuf]
      have : sizeof_Elf64_Sym * (i + 1) ≤ sizeof_Elf64_Sym * n := Nat.mul_le_mul_left _ hi
      rw [Nat.mul_add, Nat.mul_one] at this
      exact this
  · subst h
    have hc : ¬ (ELFCLASS32 = ELFCLASS64) := by decide
    simp only [record_size, sym_at, hc, if_false] at hbuf hint hnames ⊢
    simp only [print_records, hc, if_false, if_true]
    rw [symtab_loop_done sizeof_Elf32_Sym _
      (fun i => if names i ≠ [] then sym_line ELFCLASS32 (Elf32_Sym_at symbuf i) (names i) else "")
      n _ (by decide) _ hint]
    · rw [concat_all_filter (fun i => names i ≠ [])]
    · intro i hi
      apply sym_step32_eq _ _ _ _ _ (hnames i hi)
      rw [hbuf]
      have : sizeof_Elf32_Sym * (i + 1) ≤ sizeof_Elf32_Sym * n := Nat.mul_le_mul_left _ hi
      rw [Nat.mul_add, Nat.mul_one] at this
      exact this

/-! ## The iteration budget is never used up -/

theorem symtab_loop_budget_late (sh_size recsize : Nat) (step : Nat → Option String) :
    ∀ (fuel : Nat) (slided : Int) (index : Nat) (out o : String),
      index ≤ INT_MAX + 1 → INT_MAX + 1 < fuel + index →
      symtab_loop sh_size recsize step fuel slided index out ≠ Outcome.out_of_fuel o := by
  intro fuel
  induction fuel with
  | zero => intro slided index out o h1 h2; omega
  | succ f ih =>
    intro slided index out o h1 h2
    rw [symtab_loop]
    by_cases hc : int_to_ulong slided < sh_size
    · rw [if_pos hc]
      cases hs : step index with
      | none => simp
      | some text =>
        by_cases hi : index + 1 ≤ INT_MAX
        · simp only [hi, if_true]
          exact ih _ _ _ _ (by omega) (by omega)
        · simp [hi]
    · rw [if_neg hc]; simp

theorem symtab_loop_budget (sh_size recsize : Nat) (step : Nat → Option String)
    (hrec : 0 < recsize) (hrmax : recsize ≤ INT_MAX) :
    ∀ (n k fuel : Nat) (out o : String),
      sh_size - k ≤ n → k ≤ sh_size → sh_size + 1 ≤ fuel + k → recsize * k ≤ INT_MAX →
      symtab_loop sh_size recsize step fuel ((recsize * k : Nat) : Int) k out ≠
        Outcome.out_of_fuel o := by
  intro n
  induction n with
  | zero =>
    intro k fuel out o hn hk hf hmax
    obtain ⟨f, rfl⟩ : ∃ f, fuel = f + 1 := ⟨fuel - 1, by omega⟩
    have hkk : k ≤ recsize * k := Nat.le_mul_of_pos_left k hrec
    rw [symtab_loop, int_to_ulong_natCast _ (by unfold INT_MAX at hmax; omega),
      if_neg (by omega)]
    simp
  | succ n ih =>
    intro k fuel out o hn hk hf hmax
    obtain ⟨f, rfl⟩ : ∃ f, fuel = f + 1 := ⟨fuel - 1, by omega⟩
    have hkk : k ≤ recsize * k := Nat.le_mul_of_pos_left k hrec
    have h0 : int_to_ulong ((recsize * k : Nat) : Int) = recsize * k :=
      int_to_ulong_natCast _ (by unfold INT_MAX at hmax; omega)
    rw [symtab_loop, h0]
    by_cases hc : recsize * k < sh_size
    · rw [if_pos hc]
      cases hs : step k with
      | none => simp
      | some text =>
        by_cases hi : k + 1 ≤ INT_MAX
        swap
        · simp [hi]
        simp only [hi, if_true]
        by_cases hw : recsize * k + recsize ≤ INT_MAX
        · have h6 := slided_next (recsize * k) recsize hw
          rw [h0] at h6
          rw [h6]
          have e2 : recsize * k + recsize = recsize * (k + 1) := by ring
          rw [e2]
          exact ih (k + 1) f _ o (by omega) (by omega) (by omega) (by rw [← e2]; exact hw)
        · have hwr := slided_wrapped (recsize * k) recsize hmax (by omega) hrmax
          rw [h0] at hwr
          by_cases hbig : int_to_ulong (ulong_to_int ((recsize * k + recsize) % 2 ^ 64)) < sh_size
          · apply symtab_loop_budget_late
            · omega
            · unfold INT_MAX; omega
          · obtain ⟨g, rfl⟩ : ∃ g, f = g + 1 := ⟨f - 1, by omega⟩
            rw [symtab_loop, if_neg hbig]
            simp
    · rw [if_neg hc]; simp

/-- The embedding of `print_symtab` gives its loop passes enough: no run ends
with the iteration budget used up. -/
theorem print_symtab_budget (input : Elf) (symtabOffset stringtabIndex : Nat) (out o : String) :
    print_symtab input symtabOffset stringtabIndex out ≠ Outcome.out_of_fuel o := by
  have hrec : ∀ (cls sh_size : Nat) (symdata strdata : Option (List UInt8)),
      print_records cls sh_size symdata strdata out ≠ Outcome.out_of_fuel o := by
    intro cls sh_size symdata strdata
    unfold print_records
    by_cases h64 : cls = ELFCLASS64
    · rw [if_pos h64]
      have h := symtab_loop_budget sh_size sizeof_Elf64_Sym
        (sym_step64 symdata strdata) (by decide) (by decide) sh_size 0 (sh_size + 1)
        (out ++ HEADER) o (by omega) (by omega) (by omega) (by decide)
      simpa using h
    · rw [if_neg h64]
      by_cases h32 : cls = ELFCLASS32
      · rw [if_pos h32]
        have h := symtab_loop_budget sh_size sizeof_Elf32_Sym
          (sym_step32 symdata strdata) (by decide) (by decide) sh_size 0 (sh_size + 1)
          (out ++ HEADER) o (by omega) (by omega) (by omega) (by decide)
        simpa using h
      · rw [if_neg h32]; simp
  unfold print_symtab
  cases hs : gelf_offscn input symtabOffset with
  | none =>
    simp only []
    split <;> simp
  | some scn => exact hrec _ _ _ _

/-- No run of `main` ends with the iteration budget used up: `main` returns a
status or the run is undefined in C. -/
theorem main_budget (argc fd : Int) (elfInput : Option Elf) (errmsg o : String) :
    main argc fd elfInput errmsg ≠ ProcessResult.out_of_fuel o := by
  unfold main check_args open_file
  by_cases h1 : argc < 2
  · simp [h1]
  · simp only [h1, if_false]
    by_cases h2 : fd = -1
    · simp [h2]
    · simp only [h2, if_false]
      cases elfInput with
      | none => simp
      | some elf =>
        simp only []
        cases hstr : fetch_section elf (some (c_str ".strtab")) with
        | none => simp
        | some strtabIndex =>
          simp only []
          by_cases h3 : strtabIndex = NOT_FOUND
          · simp [h3]
          · simp only [h3, if_false]
            cases hsym : fetch_section elf (some (c_str ".symtab")) with
            | none => simp
            | some symtabOffset =>
              simp only []
              by_cases h4 : symtabOffset = NOT_FOUND
              · simp [h4]
              · simp only [h4, if_false]
                have hb := print_symtab_budget elf symtabOffset strtabIndex "" 
                cases hp : print_symtab elf symtabOffset strtabIndex "" with
                | done out => simp
                | undefined out => simp
                | out_of_fuel out => exact absurd hp (hb out)

/-! ## The scan of `fetch_section` -/

theorem fetch_section_loop_match (iter : Elf) (idx : Nat) (wanted : CStr) (s : Elf_Scn)
    (post : List Elf_Scn) :
    ∀ pre : List Elf_Scn,
      (∀ p ∈ pre, ∃ nm, elf_strptr iter idx p.shdr.sh_name = some nm ∧ nm ≠ wanted) →
      elf_strptr iter idx s.shdr.sh_name = some wanted →
      fetch_section_loop iter idx wanted (pre ++ s :: post) = some (some s.shdr.sh_offset) := by
  intro pre
  induction pre with
  | nil => intro _ hs; simp [fetch_section_loop, hs]
  | cons p pre ih =>
    intro hpre hs
    obtain ⟨nm, h1, h2⟩ := hpre p (List.mem_cons_self _ _)
    simp only [List.cons_append, fetch_section_loop, h1, h2, if_false]
    exact ih (fun q hq => hpre q (List.mem_cons_of_mem _ hq)) hs

theorem fetch_section_loop_no_match (iter : Elf) (idx : Nat) (wanted : CStr) :
    ∀ l : List Elf_Scn,
      (∀ p ∈ l, ∃ nm, elf_strptr iter idx p.shdr.sh_name = some nm ∧ nm ≠ wanted) →
      fetch_section_loop iter idx wanted l = some none := by
  intro l
  induction l with
  | nil => intro _; rfl
  | cons p l ih =>
    intro hl
    obtain ⟨nm, h1, h2⟩ := hl p (List.mem_cons_self _ _)
    simp only [fetch_section_loop, h1, h2, if_false]
    exact ih (fun q hq => hl q (List.mem_cons_of_mem _ hq))

theorem fetch_section_loop_unresolved (iter : Elf) (idx : Nat) (wanted : CStr) (s : Elf_Scn)
    (post : List Elf_Scn) :
    ∀ pre : List Elf_Scn,
      (∀ p ∈ pre, ∃ nm, elf_strptr iter idx p.shdr.sh_name = some nm ∧ nm ≠ wanted) →
      elf_strptr iter idx s.shdr.sh_name = none →
      fetch_section_loop iter idx wanted (pre ++ s :: post) = none := by
  intro pre
  induction pre with
  | nil => intro _ hs; simp [fetch_section_loop, hs]
  | cons p pre ih =>
    intro hpre hs
    obtain ⟨nm, h1, h2⟩ := hpre p (List.mem_cons_self _ _)
    simp only [List.cons_append, fetch_section_loop, h1, h2, if_false]
    exact ih (fun q hq => hpre q (List.mem_cons_of_mem _ hq)) hs

/-- The result of `fetch_section` when the first section with the wanted name
is `s`. -/
theorem fetch_section_of_first (input : Elf) (wanted : CStr) (pre post : List Elf_Scn)
    (s : Elf_Scn) (hsec : elf_nextscn_all input = pre ++ s :: post)
    (hpre : ∀ p ∈ pre, ∃ nm, section_name input p = some nm ∧ nm ≠ wanted)
    (hs : section_name input s = some wanted) :
    fetch_section input (some wanted) = some s.shdr.sh_offset := by
  simp only [fetch_section, hsec]
  rw [fetch_section_loop_match input input.shstrndx wanted s post pre hpre hs]

/-- When `s` is the first section with the wanted name, a run of
`fetch_section` that returns returns the offset of `s`. -/
theorem fetch_section_returns_first (input : Elf) (wanted : CStr) (pre post : List Elf_Scn)
    (s : Elf_Scn) (hsec : elf_nextscn_all input = pre ++ s :: post)
    (hfirst : ∀ p ∈ pre, section_name input p ≠ some wanted)
    (hs : section_name input s = some wanted) :
    fetch_section input (some wanted) = none ∨
      fetch_section input (some wanted) = some s.shdr.sh_offset := by
  have hgen : ∀ l : List Elf_Scn, (∀ p ∈ l, section_name input p ≠ some wanted) →
      fetch_section_loop input input.shstrndx wanted (l ++ s :: post) = none ∨
        fetch_section_loop input input.shstrndx wanted (l ++ s :: post) =
          some (some s.shdr.sh_offset) := by
    intro l
    induction l with
    | nil =>
      intro _
      right
      simp only [section_name] at hs
      simp [fetch_section_loop, hs]
    | cons p l ih =>
      intro hl
      have hp := hl p (List.mem_cons_self _ _)
      simp only [section_name] at hp
      simp only [List.cons_append, fetch_section_loop]
      cases hn : elf_strptr input input.shstrndx p.shdr.sh_name with
      | none => left; rfl
      | some nm =>
        have hne : nm ≠ wanted := by
          intro h
          rw [hn, h] at hp
          exact hp rfl
        simp only [hne, if_false]
        exact ih (fun q hq => hl q (List.mem_cons_of_mem _ hq))
  simp only [fetch_section, hsec]
  rcases hgen pre hfirst with h | h
  · left; rw [h]
  · right; rw [h]

/-! ## The lookup by file offset -/

theorem offscn_scan_no_match (offset : Nat) :
    ∀ (l : List Elf_Scn) (best : Option Elf_Scn),
      (∀ t ∈ l, t.shdr.sh_offset ≠ offset) → offscn_scan offset l best = best := by
  intro l
  induction l with
  | nil => intro best _; rfl
  | cons t l ih =>
    intro best h
    have h1 : t.shdr.sh_offset ≠ offset := h t (List.mem_cons_self _ _)
    simp only [offscn_scan, h1, if_false]
    exact ih best (fun q hq => h q (List.mem_cons_of_mem _ hq))

/-- The lookup by file offset gives the one section that has the offset. -/
theorem gelf_offscn_unique (input : Elf) (pre post : List Elf_Scn) (s : Elf_Scn)
    (hsec : input.sections = pre ++ s :: post)
    (hpre : ∀ t ∈ pre, t.shdr.sh_offset ≠ s.shdr.sh_offset)
    (hpost : ∀ t ∈ post, t.shdr.sh_offset ≠ s.shdr.sh_offset) :
    gelf_offscn input s.shdr.sh_offset = some s := by
  have hgen : ∀ (l : List Elf_Scn) (best : Option Elf_Scn),
      (∀ t ∈ l, t.shdr.sh_offset ≠ s.shdr.sh_offset) →
      offscn_scan s.shdr.sh_offset (l ++ s :: post) best = some s := by
    intro l
    induction l with
    | nil =>
      intro best _
      simp only [List.nil_append, offscn_scan, if_true]
      by_cases hc : s.shdr.sh_size ≠ 0 ∧ s.shdr.sh_type ≠ SHT_NOBITS
      · rw [if_pos hc]
      · rw [if_neg hc]
        exact offscn_scan_no_match _ post _ hpost
    | cons t l ih =>
      intro best h
      have h1 : t.shdr.sh_offset ≠ s.shdr.sh_offset := h t (List.mem_cons_self _ _)
      simp only [List.cons_append, offscn_scan, h1, if_false]
      exact ih best (fun q hq => h q (List.mem_cons_of_mem _ hq))
  simp only [gelf_offscn, hsec]
  exact hgen pre none hpre

/-! ## String tables -/

theorem scan_string_append_nul (s : CStr) (rest : List UInt8) (hs : ∀ b ∈ s, b ≠ 0) :
    scan_string (s ++ 0 :: rest) = some s := by
  induction s with
  | nil => simp [scan_string]
  | cons b s ih =>
    have hb : b ≠ 0 := hs b (List.mem_cons_self _ _)
    have h := ih (fun c hc => hs c (List.mem_cons_of_mem _ hc))
    show scan_string (b :: (s ++ 0 :: rest)) = some (b :: s)
    rw [scan_string, if_neg hb, h]
    rfl

theorem c_string_build_strtab_get (strs : List CStr) :
    ∀ k : Nat, (∀ s ∈ strs, ∀ b ∈ s, b ≠ 0) → k < strs.length →
      c_string (build_strtab strs) (start_offset strs k) = strs.get? k := by
  induction strs with
  | nil => intro k _ hk; simp at hk
  | cons s rest ih =>
    intro k hnul hk
    cases k with
    | zero =>
      simp only [start_offset, List.take, List.map, List.sum_nil, c_string, List.drop,
        build_strtab, List.get?]
      exact scan_string_append_nul s _ (hnul s (List.mem_cons_self _ _))
    | succ k =>
      have hk2 : k < rest.length := by simpa using hk
      have h := ih k (fun t ht => hnul t (List.mem_cons_of_mem _ ht)) hk2
      simp only [start_offset, c_string] at h
      simp only [start_offset, List.take, List.map, List.sum_cons, c_string, build_strtab,
        List.get?]
      rw [← h]
      congr 1
      have e : s ++ 0 :: build_strtab rest = (s ++ [0]) ++ build_strtab rest := by simp
      rw [e, List.drop_append_eq_append_drop]
      simp

/-! ## Section lookup by name -/

/-- C5: for every image and every non-NULL wanted name, over the sections
that `elf_nextscn` enumerates in file order: when the names of the sections
scanned resolve, `fetch_section` returns the file offset of the first section
whose name is byte for byte the wanted name, whatever sections follow it
(duplicates included); and when every name resolves and none is the wanted
name, it returns `-1` converted to `Elf64_Off`. -/
theorem fetch_section_first_match (input : Elf) (wanted : CStr) :
    (∀ (pre post : List Elf_Scn) (s : Elf_Scn),
      elf_nextscn_all input = pre ++ s :: post →
      (∀ p ∈ pre, ∃ nm, section_name input p = some nm ∧ nm ≠ wanted) →
      section_name input s = some wanted →
      fetch_section input (some wanted) = some s.shdr.sh_offset) ∧
    ((∀ p ∈ elf_nextscn_all input, ∃ nm, section_name input p = some nm ∧ nm ≠ wanted) →
      fetch_section input (some wanted) = some NOT_FOUND) ∧
    NOT_FOUND = 18446744073709551615 := by
  refine ⟨?_, ?_, by decide⟩
  · intro pre post s hsec hpre hs
    exact fetch_section_of_first input wanted pre post s hsec hpre hs
  · intro hall
    simp only [fetch_section]
    rw [fetch_section_loop_no_match input input.shstrndx wanted _ hall]

/-- Witness of C5 on an image with two sections named `.symtab`: the offset
of the first one, 64, is returned. -/
theorem fetch_section_first_match_witness :
    fetch_section duplicate_symtab_elf (some (c_str ".symtab")) = some 64 :=
  (fetch_section_first_match duplicate_symtab_elf (c_str ".symtab")).1 []
    [⟨⟨1, 2, 128, 24⟩, some (Elf64_Sym_bytes 0 0 0 0 0 0)⟩, strtab_scn foo_strtab, shstrtab_scn]
    ⟨⟨1, 2, 64, 48⟩, some foo_symtab⟩ (by decide) (by simp) (by decide)

/-- C8, as the claim states it, fails: in `corrupt_name_elf` the name of the
first section does not resolve and the next section is named `.symtab`, yet
`fetch_section` does not return the offset 64 of that section: the NULL name
reaches `strcmp` and the run is undefined. -/
theorem fetch_section_corrupt_name_counterexample :
    section_name corrupt_name_elf ⟨⟨1000, 1, 32, 8⟩, some [0, 0, 0, 0, 0, 0, 0, 0]⟩ = none ∧
    section_name corrupt_name_elf ⟨⟨1, 2, 64, 48⟩, some foo_symtab⟩ = some (c_str ".symtab") ∧
    fetch_section corrupt_name_elf (some (c_str ".symtab")) = none ∧
    fetch_section corrupt_name_elf (some (c_str ".symtab")) ≠ some 64 := by
  decide

/-- C8, amended: `fetch_section` has no handling of a name that does not
resolve. When such a section is scanned before any section with the wanted
name, the NULL name is passed to `strcmp`: the run is undefined and returns
no offset, whatever the later sections are named. Sections after the first
match are not scanned: names there that do not resolve leave the result, the
offset of the first match, as it is. -/
theorem fetch_section_unresolved_name (input : Elf) (wanted : CStr)
    (pre post : List Elf_Scn) (s : Elf_Scn)
    (hsec : elf_nextscn_all input = pre ++ s :: post)
    (hpre : ∀ p ∈ pre, ∃ nm, section_name input p = some nm ∧ nm ≠ wanted) :
    (section_name input s = none → fetch_section input (some wanted) = none) ∧
    (section_name input s = some wanted →
      fetch_section input (some wanted) = some s.shdr.sh_offset) := by
  constructor
  · intro hs
    simp only [fetch_section, hsec]
    rw [fetch_section_loop_unresolved input input.shstrndx wanted s post pre hpre hs]
  · intro hs
    exact fetch_section_of_first input wanted pre post s hsec hpre hs

/-- Witness of C8 amended, on `corrupt_name_elf`. -/
theorem fetch_section_unresolved_name_witness :
    fetch_section corrupt_name_elf (some (c_str ".symtab")) = none :=
  (fetch_section_unresolved_name corrupt_name_elf (c_str ".symtab") []
    [⟨⟨1, 2, 64, 48⟩, some foo_symtab⟩, strtab_scn foo_strtab, shstrtab_scn]
    ⟨⟨1000, 1, 32, 8⟩, some [0, 0, 0, 0, 0, 0, 0, 0]⟩ (by decide) (by simp)).1 (by decide)

/-- C10: when the first section with the wanted name (`.symtab`, `.strtab`)
has a file offset that no other section of the image has, the lookup by
the offset that `fetch_section` returned gives that same section (it is the
only section at that offset), and `print_symtab` works on the size and data
of the section matched by name. A run of `fetch_section` that returns
returns the offset of that section, and it does return when the names of the
sections before it resolve. Without the premise on the offsets the lookup
can give another section: in `shared_offset_elf` the lookup by the offset of
`.symtab` gives `.text`. -/
theorem offset_lookup_returns_named_section (input : Elf) (wanted : CStr)
    (hd s : Elf_Scn) (pre post : List Elf_Scn)
    (hsec : input.sections = hd :: (pre ++ s :: post))
    (hfirst : ∀ p ∈ pre, section_name input p ≠ some wanted)
    (hs : section_name input s = some wanted)
    (huniq : ∀ t ∈ hd :: (pre ++ post), t.shdr.sh_offset ≠ s.shdr.sh_offset) :
    ((∀ offset, fetch_section input (some wanted) = some offset →
        offset = s.shdr.sh_offset ∧ gelf_offscn input offset = some s) ∧
      ((∀ p ∈ pre, section_name input p ≠ none) →
        fetch_section input (some wanted) = some s.shdr.sh_offset) ∧
      gelf_offscn input s.shdr.sh_offset = some s ∧
      (∀ scn ∈ input.sections, scn.shdr.sh_offset = s.shdr.sh_offset → scn = s) ∧
      (∀ (stringtabIndex : Nat) (out : String),
        print_symtab input s.shdr.sh_offset stringtabIndex out =
          print_records input.ei_class s.shdr.sh_size s.data
            ((gelf_offscn input stringtabIndex).bind (fun scn => scn.data)) out) ∧
      (∀ (symtabOffset : Nat) (symtab : Elf_Scn) (out : String),
        gelf_offscn input symtabOffset = some symtab →
        print_symtab input symtabOffset s.shdr.sh_offset out =
          print_records input.ei_class symtab.shdr.sh_size symtab.data s.data out)) ∧
    (section_name shared_offset_elf text_scn = some (c_str ".text") ∧
      section_name shared_offset_elf symtab_scn = some (c_str ".symtab") ∧
      fetch_section shared_offset_elf (some (c_str ".symtab")) = some symtab_scn.shdr.sh_offset ∧
      gelf_offscn shared_offset_elf symtab_scn.shdr.sh_offset = some text_scn ∧
      text_scn ≠ symtab_scn) := by
  have hoff : gelf_offscn input s.shdr.sh_offset = some s := by
    apply gelf_offscn_unique input (hd :: pre) post s (by simp [hsec])
    · intro t ht
      apply huniq t
      rcases List.mem_cons.1 ht with h | h
      · simp [h]
      · simp [h]
    · intro t ht
      apply huniq t
      simp [ht]
  have hnext : elf_nextscn_all input = pre ++ s :: post := by simp [elf_nextscn_all, hsec]
  refine ⟨⟨?_, ?_, hoff, ?_, ?_, ?_⟩, by decide⟩
  · intro offset hret
    rcases fetch_section_returns_first input wanted pre post s hnext hfirst hs with h | h
    · rw [h] at hret; cases hret
    · rw [h] at hret
      cases hret
      exact ⟨rfl, hoff⟩
  · intro hres
    apply fetch_section_of_first input wanted pre post s hnext _ hs
    intro p hp
    cases hn : section_name input p with
    | none => exact absurd hn (hres p hp)
    | some nm =>
      refine ⟨nm, rfl, ?_⟩
      intro h
      rw [h] at hn
      exact hfirst p hp hn
  · intro scn hscn hso
    rw [hsec] at hscn
    rcases List.mem_cons.1 hscn with h | h
    · exact absurd hso (huniq scn (by simp [h]))
    · rcases List.mem_append.1 h with h | h
      · exact absurd hso (huniq scn (by simp [h]))
      · rcases List.mem_cons.1 h with h | h
        · exact h
        · exact absurd hso (huniq scn (by simp [h]))
  · intro stringtabIndex out
    simp only [print_symtab, hoff, Option.bind]
  · intro symtabOffset symtab out hsym
    simp only [print_symtab, hoff, hsym, Option.bind]

/-- Witness of C10 on the end-to-end image: `.symtab` is alone at offset 64. -/
theorem offset_lookup_returns_named_section_witness :
    fetch_section (sample_elf ELFCLASS64 48 (some foo_symtab) foo_strtab)
        (some (c_str ".symtab")) = some 64 ∧
      gelf_offscn (sample_elf ELFCLASS64 48 (some foo_symtab) foo_strtab) 64 =
        some ⟨⟨1, 2, 64, 48⟩, some foo_symtab⟩ :=
  have h := (offset_lookup_returns_named_section
    (sample_elf ELFCLASS64 48 (some foo_symtab) foo_strtab) (c_str ".symtab")
    null_scn ⟨⟨1, 2, 64, 48⟩, some foo_symtab⟩ []
    [⟨⟨9, 3, 2048, foo_strtab.length⟩, some foo_strtab⟩, shstrtab_scn]
    (by decide) (by simp) (by decide) (by decide)).1
  ⟨h.2.1 (by simp), h.2.2.1⟩

/-! ## Names and info bytes -/

/-- C7: for every list of strings without a NUL byte, in the string table
made of each string followed by one NUL, the name that `print_symtab`
resolves at the start offset of string number `k` (the bytes from the offset
up to the first NUL) is string number `k`. -/
theorem resolve_build_strtab (strs : List CStr) (k : Nat) (hk : k < strs.length)
    (hnul : ∀ s ∈ strs, ∀ b ∈ s, b ≠ 0) :
    c_string (build_strtab strs) (start_offset strs k) = some (strs.get ⟨k, hk⟩) := by
  rw [c_string_build_strtab_get strs k hnul hk]
  exact List.get?_eq_get hk

/-- Witness of C7: `.strtab` starts at offset 9 of `"\0.symtab\0.strtab\0"`. -/
theorem resolve_build_strtab_witness :
    c_string (build_strtab [[], c_str ".symtab", c_str ".strtab"]) 9 = some (c_str ".strtab") :=
  resolve_build_strtab [[], c_str ".symtab", c_str ".strtab"] 2 (by decide) (by decide)

/-- The field of one byte at an offset is the byte stored there. -/
theorem field_one_byte :
    ∀ (d_buf : List UInt8) (offset : Nat) (b : UInt8),
      d_buf.get? offset = some b → field d_buf offset 1 = b.toNat := by
  intro d_buf
  induction d_buf with
  | nil => intro offset b h; simp at h
  | cons a l ih =>
    intro offset b h
    cases offset with
    | zero =>
      simp only [List.get?, Option.some.injEq] at h
      subst h
      simp [field, le_value]
    | succ k =>
      simp only [List.get?] at h
      have h2 := ih k b h
      simpa [field] using h2

/-- The two `%u` fields of binding and type show the nibbles of the info
byte in decimal. -/
theorem fmt_u_nibbles (b : Nat) (hb : b < 256) :
    fmt_u (ELF_ST_BIND b) = decimal (b >>> 4) ∧ fmt_u (ELF_ST_TYPE b) = decimal (b &&& 0xF) ∧
    b >>> 4 = b / 16 ∧ b &&& 0xF = b % 16 := by
  have h2 : b >>> 4 = b / 16 := by
    rw [Nat.shiftRight_eq_div_pow]
  have h3 : b &&& 0xF = b % 16 := by
    have h := Nat.and_pow_two_sub_one_eq_mod b 4
    simpa using h
  have h4 : b / 16 % 2 ^ 32 = b / 16 := Nat.mod_eq_of_lt (by omega)
  have h5 : b % 16 % 2 ^ 32 = b % 16 := Nat.mod_eq_of_lt (by omega)
  refine ⟨?_, ?_, h2, h3⟩
  · simp only [fmt_u, decimal, ELF_ST_BIND, Nat.mod_eq_of_lt hb, h2, h4]
  · simp only [fmt_u, decimal, ELF_ST_TYPE, h3, h5]

/-- C6: for every info byte, in the 64-bit branch (the byte at offset 4 of the
24-byte record) and in the 32-bit branch (the byte at offset 12 of the
16-byte record), the line that a pass of `print_symtab` prints for a symbol
with a name that is not empty shows, in decimal, the high nibble `b >> 4` as
binding and the low nibble `b & 0xF` as type; binding * 16 + type is the
byte; and the records with info byte `0x12` (and another `st_other`) are
printed with binding 1 and type 2 in both branches. -/
theorem bind_type_nibbles (info : UInt8) :
    (∀ (symbuf strbuf : List UInt8) (index : Nat) (name : CStr),
      24 * index + 24 ≤ symbuf.length →
      symbuf.get? (24 * index + 4) = some info →
      c_string strbuf (field symbuf (24 * index) 4) = some name → name ≠ [] →
      sym_step64 (some symbuf) (some strbuf) index =
        some (fmt_x 16 (field symbuf (24 * index + 8) 8) ++ "    " ++
          decimal (info.toNat >>> 4) ++ "    " ++ decimal (info.toNat &&& 0xF) ++ "    " ++
          fmt_u (field symbuf (24 * index + 16) 8) ++ "    " ++ fmt_s name ++ "   \n")) ∧
    (∀ (symbuf strbuf : List UInt8) (index : Nat) (name : CStr),
      16 * index + 16 ≤ symbuf.length →
      symbuf.get? (16 * index + 12) = some info →
      c_string strbuf (field symbuf (16 * index) 4) = some name → name ≠ [] →
      sym_step32 (some symbuf) (some strbuf) index =
        some (fmt_x 8 (field symbuf (16 * index + 4) 4) ++ "    " ++
          decimal (info.toNat >>> 4) ++ "    " ++ decimal (info.toNat &&& 0xF) ++ "    " ++
          fmt_u (field symbuf (16 * index + 8) 4) ++ "    " ++ fmt_s name ++ "   \n")) ∧
    info.toNat < 256 ∧
    (info.toNat >>> 4) * 16 + (info.toNat &&& 0xF) = info.toNat ∧
    info.toNat >>> 4 = info.toNat / 16 ∧ info.toNat &&& 0xF = info.toNat % 16 ∧
    print_symtab (sample_elf ELFCLASS64 24 (some (Elf64_Sym_bytes 1 0x12 0x34 1 0x401000 8))
        foo_strtab) 64 2048 "" =
      Outcome.done ("      Value       Bind Type Size           Name\n" ++
        "0000000000401000    1    2    8    foo   \n") ∧
    print_symtab (sample_elf ELFCLASS32 16 (some (Elf32_Sym_bytes 1 0x401000 8 0x12 0x34 1))
        foo_strtab) 64 2048 "" =
      Outcome.done ("      Value       Bind Type Size           Name\n" ++
        "00401000    1    2    8    foo   \n") := by
  have hb : info.toNat < 256 := UInt8.toNat_lt_size info
  obtain ⟨hbind, htype, h2, h3⟩ := fmt_u_nibbles info.toNat hb
  refine ⟨?_, ?_, hb, ?_, h2, h3, by decide, by decide⟩
  · intro symbuf strbuf index name hin hinfo hname hne
    have h1 : 24 * index + 4 ≤ symbuf.length := by omega
    have h4 : 24 * index + 8 + 8 ≤ symbuf.length := by omega
    have h5 : 24 * index + 4 + 1 ≤ symbuf.length := by omega
    have h6 : 24 * index + 16 + 8 ≤ symbuf.length := by omega
    simp only [sym_step64, sizeof_Elf64_Sym, read_le, h1, h4, h5, h6, if_true, hname, hne,
      ne_eq, not_false_eq_true, line64, field_one_byte symbuf _ info hinfo, hbind, htype]
  · intro symbuf strbuf index name hin hinfo hname hne
    have h1 : 16 * index + 4 ≤ symbuf.length := by omega
    have h4 : 16 * index + 4 + 4 ≤ symbuf.length := by omega
    have h5 : 16 * index + 12 + 1 ≤ symbuf.length := by omega
    have h6 : 16 * index + 8 + 4 ≤ symbuf.length := by omega
    simp only [sym_step32, sizeof_Elf32_Sym, read_le, h1, h4, h5, h6, if_true, hname, hne,
      ne_eq, not_false_eq_true, line32, field_one_byte symbuf _ info hinfo, hbind, htype]
  · rw [h2, h3]; omega

/-- Witness of C6: the pass on the 64-bit record with info byte `0x12` and
`st_other` `0x34`. -/
theorem bind_type_nibbles_witness :
    sym_step64 (some (Elf64_Sym_bytes 1 0x12 0x34 1 0x401000 8)) (some foo_strtab) 0 =
      some ("0000000000401000    1    2    8    foo   \n") :=
  (bind_type_nibbles 0x12).1 (Elf64_Sym_bytes 1 0x12 0x34 1 0x401000 8) foo_strtab 0
    (c_str "foo") (by decide) (by decide) (by decide) (by decide)

/-! ## The report -/

theorem concat_all_append (l1 l2 : List String) :
    concat_all (l1 ++ l2) = concat_all l1 ++ concat_all l2 := by
  induction l1 with
  | nil => simp [concat_all]
  | cons a l ih => simp [concat_all, ih, String.append_assoc]

/-- The counter `slided` leaves the range of `int` at the end of pass `n`:
the next test of the loop condition fails, whatever is left of the table,
and the loop ends normally after the texts of the passes 0 to `n`. -/
theorem symtab_loop_wraps (sh_size recsize : Nat) (step : Nat → Option String)
    (t : Nat → String) (n fuel : Nat) (out : String)
    (hstep : ∀ i, i ≤ n → step i = some (t i))
    (hlt : recsize * n < sh_size) (hmax : recsize * n ≤ INT_MAX)
    (hover : INT_MAX < recsize * n + recsize) (hrec : recsize ≤ INT_MAX)
    (hidx : n + 1 ≤ INT_MAX) (hsize : sh_size ≤ 2 ^ 64 - 2 ^ 31) :
    symtab_loop sh_size recsize step (fuel + 2 + n) 0 0 out =
      Outcome.done (out ++ concat_all ((List.range (n + 1)).map t)) := by
  have h := symtab_loop_passes sh_size recsize step t n 0 (fuel + 2) out
    (fun i _ hi => hstep i (by omega)) (by simpa using hmax) (by omega)
    (fun i hi => lt_of_le_of_lt (Nat.mul_le_mul_left _ (by omega)) hlt)
  simp only [Nat.mul_zero, Nat.zero_add, Nat.cast_zero] at h
  rw [h, symtab_loop]
  have h0 : int_to_ulong ((recsize * n : Nat) : Int) = recsize * n :=
    int_to_ulong_natCast _ (by unfold INT_MAX at hmax; omega)
  have h1 : int_to_ulong ((recsize * n : Nat) : Int) < sh_size := by rw [h0]; exact hlt
  simp only [h1, if_true, hstep n (le_refl _), hidx]
  rw [symtab_loop]
  have hw := slided_wrapped (recsize * n) recsize hmax hover hrec
  rw [if_neg (by omega)]
  rw [List.range_succ, List.map_append, concat_all_append, List.range_eq_range']
  simp [concat_all, String.append_assoc]

theorem le_value_replicate_zero (n : Nat) : le_value (List.replicate n 0) = 0 := by
  induction n with
  | zero => rfl
  | succ n ih =>
    show (0 : UInt8).toNat + 256 * le_value (List.replicate n 0) = 0
    rw [ih]; rfl

theorem field_zero_region (m : Nat) (tail : List UInt8) (offset n : Nat)
    (h : offset + n ≤ m) : field (List.replicate m 0 ++ tail) offset n = 0 := by
  unfold field
  rw [List.drop_append_of_le_length (by rw [List.length_replicate]; omega), List.drop_replicate,
    List.take_append_of_le_length (by rw [List.length_replicate]; omega), List.take_replicate,
    Nat.min_eq_left (by omega)]
  exact le_value_replicate_zero n

theorem field_after_region (l1 l2 : List UInt8) (offset n : Nat) :
    field (l1 ++ l2) (l1.length + offset) n = field l2 offset n := by
  unfold field
  rw [List.drop_append]

/-- In the sample images the lookup by file offset 64 gives `.symtab`. -/
theorem gelf_offscn_sample_symtab (cls sh_size : Nat) (symdata : Option (List UInt8))
    (strbuf : List UInt8) :
    gelf_offscn (sample_elf cls sh_size symdata strbuf) 64 =
      some ⟨⟨1, 2, 64, sh_size⟩, symdata⟩ :=
  gelf_offscn_unique (sample_elf cls sh_size symdata strbuf) [null_scn]
    [⟨⟨9, 3, 2048, strbuf.length⟩, some strbuf⟩, shstrtab_scn] ⟨⟨1, 2, 64, sh_size⟩, symdata⟩
    rfl (by simp [null_scn]) (by simp [shstrtab_scn])

/-- In the sample images the lookup by file offset 2048 gives `.strtab`. -/
theorem gelf_offscn_sample_strtab (cls sh_size : Nat) (symdata : Option (List UInt8))
    (strbuf : List UInt8) :
    gelf_offscn (sample_elf cls sh_size symdata strbuf) 2048 =
      some ⟨⟨9, 3, 2048, strbuf.length⟩, some strbuf⟩ :=
  gelf_offscn_unique (sample_elf cls sh_size symdata strbuf)
    [null_scn, ⟨⟨1, 2, 64, sh_size⟩, symdata⟩] [shstrtab_scn]
    ⟨⟨9, 3, 2048, strbuf.length⟩, some strbuf⟩
    rfl (by simp [null_scn]) (by simp [shstrtab_scn])

/-- On a sample image `print_symtab` works on the header size and the data of
its `.symtab` and on the bytes of its `.strtab`. -/
theorem print_symtab_sample (cls sh_size : Nat) (symdata : Option (List UInt8))
    (strbuf : List UInt8) (out : String) :
    print_symtab (sample_elf cls sh_size symdata strbuf) 64 2048 out =
      print_records cls sh_size symdata (some strbuf) out := by
  simp only [print_symtab, gelf_offscn_sample_symtab, gelf_offscn_sample_strtab, Option.bind]
  rfl

theorem overflow_symtab_zero_names (i : Nat) (hi : i < 89478486) :
    c_string foo_strtab (Elf64_Sym_at overflow_symtab i).st_name = some [] := by
  have h : (Elf64_Sym_at overflow_symtab i).st_name = 0 := by
    simp only [Elf64_Sym_at, overflow_symtab]
    apply field_zero_region
    simp only [sizeof_Elf64_Sym]
    omega
  rw [h]
  decide

theorem overflow_symtab_length : overflow_symtab.length = 2147483688 := by
  have h : (Elf64_Sym_bytes 1 0x12 0 1 0x401000 8).length = 24 := by decide
  rw [overflow_symtab, List.length_append, List.length_replicate, h]

/-- C1 fails on the code for a table beyond the range of `int`. The 64-bit
table `overflow_symtab` has 89478487 whole records (2147483688 bytes), the
name of each resolves, and only the last one has a name that is not empty
(`foo`): the claim gives the header and the line of that record. In
`print_symtab` the counter `int slided` is 2147483640 at record 89478485;
`slided += sizeof(Elf64_Sym)` then leaves the range of `int`, the counter
becomes negative, as a 64-bit unsigned value it is above `sh_size`, and the
loop ends: the report is the header alone, the last record is never read. -/
theorem print_symtab_int_overflow :
    overflow_symtab.length = sizeof_Elf64_Sym * 89478487 ∧
    (∀ i, i < 89478486 →
      c_string foo_strtab (Elf64_Sym_at overflow_symtab i).st_name = some []) ∧
    c_string foo_strtab (Elf64_Sym_at overflow_symtab 89478486).st_name = some (c_str "foo") ∧
    print_symtab (sample_elf ELFCLASS64 2147483688 (some overflow_symtab) foo_strtab) 64 2048 "" =
      Outcome.done HEADER := by
  refine ⟨?_, overflow_symtab_zero_names, ?_, ?_⟩
  · rw [overflow_symtab_length]; decide
  · have e : sizeof_Elf64_Sym * 89478486 = (List.replicate 2147483664 (0 : UInt8)).length + 0 := by
      rw [List.length_replicate]; decide
    have h : (Elf64_Sym_at overflow_symtab 89478486).st_name = 1 := by
      simp only [Elf64_Sym_at, overflow_symtab]
      rw [e, field_after_region]
      decide
    rw [h]
    decide
  · rw [print_symtab_sample, print_records, if_pos rfl]
    have e : (2147483688 + 1 : Nat) = 2058005202 + 2 + 89478485 := by decide
    rw [e, symtab_loop_wraps 2147483688 sizeof_Elf64_Sym _ (fun _ => "") 89478485 2058005202]
    · rw [concat_all_empty]
      rfl
    · intro i hi
      have h := sym_step64_eq overflow_symtab foo_strtab i []
        (by rw [overflow_symtab_length]; simp only [sizeof_Elf64_Sym]; omega)
        (overflow_symtab_zero_names i (by omega))
      rw [h]
      simp
    · decide
    · decide
    · decide
    · decide
    · decide
    · decide

/-- C4 fails on the code for a 64-bit value or size above 32 bits. The record
of `wide_symtab` has value `0x100401000`, info `0x12`, size `0x100000008` and
name `foo`: the claim gives the line
`0000000100401000    1    2    4294967304    foo   `. The conversions `%016x`
and `%u` of `print_symtab` take an `unsigned int`, and the line printed has
the low 32 bits of the value and of the size. -/
theorem print_symtab_wide_value :
    (Elf64_Sym_at wide_symtab 0).st_value = 0x100401000 ∧
    (Elf64_Sym_at wide_symtab 0).st_size = 0x100000008 ∧
    print_symtab (sample_elf ELFCLASS64 24 (some wide_symtab) foo_strtab) 64 2048 "" =
      Outcome.done ("      Value       Bind Type Size           Name\n" ++
        "0000000000401000    1    2    8    foo   \n") := by
  decide

/-- The end-to-end scenario: a 64-bit image whose `.symtab` holds the record
(value `0x401000`, info `0x02`, size 8, name `foo`) and a record with the
empty name prints the header and one line. -/
theorem end_to_end_scenario :
    main 2 3 (some (sample_elf ELFCLASS64 48 (some foo_symtab) foo_strtab)) "" =
      ProcessResult.exit ("      Value       Bind Type Size           Name\n" ++
        "0000000000401000    0    2    8    foo   \n") 0 := by
  decide

/-- C3 fails on the code through `print_err`. The image `no_symtab_elf` has a
section `.strtab` and no section `.symtab`: `main` returns 0, and the text
`Symtab section has 0 records.` is on `stdout`, the stream of the report,
since `print_err` calls `printf(msg, stderr)`. -/
theorem main_no_symtab_output :
    fetch_section no_symtab_elf (some (c_str ".strtab")) = some 2048 ∧
    fetch_section no_symtab_elf (some (c_str ".symtab")) = some NOT_FOUND ∧
    main 2 3 (some no_symtab_elf) "" =
      ProcessResult.exit "Symtab section has 0 records.\n" 0 := by
  decide

/-- Every image in which `.strtab` is found and `.symtab` is not: `main`
returns 0 with the text of `print_err` on `stdout`. -/
theorem main_symtab_not_found (argc fd : Int) (elf : Elf) (errmsg : String) (strtabIndex : Nat)
    (hargc : 2 ≤ argc) (hfd : fd ≠ -1)
    (hstr : fetch_section elf (some (c_str ".strtab")) = some strtabIndex)
    (hfound : strtabIndex ≠ NOT_FOUND)
    (hsym : fetch_section elf (some (c_str ".symtab")) = some NOT_FOUND) :
    main argc fd (some elf) errmsg =
      ProcessResult.exit "Symtab section has 0 records.\n" 0 := by
  have h1 : ¬ (argc < 2) := by omega
  simp only [main, check_args, h1, if_false, open_file, hfd, hstr, hfound, hsym, if_true,
    print_err]
  rfl

/-- The body is undefined at pass `n`, after `n` passes in the range of
`int`: the loop ends in undefined behaviour after the texts of those passes. -/
theorem symtab_loop_stops (sh_size recsize : Nat) (step : Nat → Option String)
    (t : Nat → String) (n fuel : Nat) (out : String)
    (hstep : ∀ i, i < n → step i = some (t i)) (hnone : step n = none)
    (hlt : recsize * n < sh_size) (hmax : recsize * n ≤ INT_MAX) (hidx : n ≤ INT_MAX) :
    symtab_loop sh_size recsize step (fuel + 1 + n) 0 0 out =
      Outcome.undefined (out ++ concat_all ((List.range n).map t)) := by
  have h := symtab_loop_passes sh_size recsize step t n 0 (fuel + 1) out
    (fun i _ hi => hstep i (by omega)) (by simpa using hmax) (by omega)
    (fun i hi => lt_of_le_of_lt (Nat.mul_le_mul_left _ (by omega)) hlt)
  simp only [Nat.mul_zero, Nat.zero_add, Nat.cast_zero] at h
  rw [h, symtab_loop]
  have h0 : int_to_ulong ((recsize * n : Nat) : Int) = recsize * n :=
    int_to_ulong_natCast _ (by unfold INT_MAX at hmax; omega)
  have h1 : int_to_ulong ((recsize * n : Nat) : Int) < sh_size := by rw [h0]; exact hlt
  simp only [h1, if_true, hnone, List.range_eq_range']

/-- C2, as the claim states it, fails: no run gives a `TruncatedTable` error.
A 64-bit `.symtab` of type `SHT_SYMTAB` and size 25, for which libelf gives
no data: the header is written and the first pass dereferences NULL, the
run is undefined. A section named `.symtab` of plain bytes, size 25, whose
bytes libelf hands out: the line of the whole record is written, then the
read of the record at the trailing byte leaves the data. The same with size
4, no multiple of 24, and the empty name: the program ends normally with
the header and status 0. -/
theorem truncated_table_counterexample :
    25 = sizeof_Elf64_Sym * 1 + 1 ∧
    main 2 3 (some (sample_elf ELFCLASS64 25 none foo_strtab)) "" =
      ProcessResult.undefined HEADER ∧
    main 2 3 (some (raw_symtab_elf ELFCLASS64 25 (some (foo_symtab.take 25)) foo_strtab)) "" =
      ProcessResult.undefined (HEADER ++ "0000000000401000    0    2    8    foo   \n") ∧
    4 % sizeof_Elf64_Sym ≠ 0 ∧
    main 2 3 (some (raw_symtab_elf ELFCLASS64 4 (some [0, 0, 0, 0]) foo_strtab)) "" =
      ProcessResult.exit HEADER 0 := by
  decide

/-- C2, amended: `print_symtab` does not compare the section size with the
record size and has no `TruncatedTable` result. On a symbol table of size
`record_size * n + 1`, at most `INT_MAX`: when libelf gives no data for the
section, the run is undefined right after the header; when the data are the
bytes of the section and the names of the `n` whole records resolve, the
header and the lines of the whole records with a name that is not empty are
written, in table order, then the read of `st_name` of the record at the
trailing byte leaves the data and the run is undefined; and whenever the
data, if any, are the bytes of the section, the run ends in undefined
behaviour, not normally. -/
theorem print_symtab_truncated (input : Elf) (symtabOffset stringtabIndex n : Nat)
    (symtab : Elf_Scn) (out : String)
    (hcls : input.ei_class = ELFCLASS64 ∨ input.ei_class = ELFCLASS32)
    (hoff : gelf_offscn input symtabOffset = some symtab)
    (hsize : symtab.shdr.sh_size = record_size input.ei_class * n + 1)
    (hint : symtab.shdr.sh_size ≤ INT_MAX) :
    (symtab.data = none →
      print_symtab input symtabOffset stringtabIndex out = Outcome.undefined (out ++ HEADER)) ∧
    (∀ (symbuf strbuf : List UInt8) (names : Nat → CStr),
      symtab.data = some symbuf → symbuf.length = symtab.shdr.sh_size →
      (gelf_offscn input stringtabIndex).bind (fun scn => scn.data) = some strbuf →
      (∀ i, i < n →
        c_string strbuf (sym_at input.ei_class symbuf i).st_name = some (names i)) →
      read_le symbuf (record_size input.ei_class * n) 4 = none ∧
      print_symtab input symtabOffset stringtabIndex out =
        Outcome.undefined (out ++ HEADER ++ concat_all
          (((List.range n).filter (fun i => decide (names i ≠ []))).map
            (fun i => sym_line input.ei_class (sym_at input.ei_class symbuf i) (names i))))) ∧
    ((∀ symbuf, symtab.data = some symbuf → symbuf.length = symtab.shdr.sh_size) →
      ∃ o, print_symtab input symtabOffset stringtabIndex out = Outcome.undefined o) := by
  have hpos : 0 < symtab.shdr.sh_size := by omega
  have hstart : int_to_ulong 0 < symtab.shdr.sh_size := by
    have h0 : int_to_ulong 0 = 0 := by decide
    rw [h0]; exact hpos
  refine ⟨?_, ?_, ?_⟩
  · intro hnone
    simp only [print_symtab, hoff, Option.bind, print_records, hnone]
    rcases hcls with h | h
    · simp only [h, if_true, symtab_loop, hstart, sym_step64]
    · have hc : ¬ (ELFCLASS32 = ELFCLASS64) := by decide
      simp only [h, hc, if_false, if_true, symtab_loop, hstart, sym_step32]
  · intro symbuf strbuf names hdata hlen hstr hnames
    simp only [print_symtab, hoff, Option.bind, print_records, hdata]
    simp only [Option.bind] at hstr
    rw [hstr]
    rw [hsize] at hint hlen
    rcases hcls with h | h
    · rw [h] at hsize hint hlen hnames
      simp only [record_size, sym_at, if_true] at hsize hint hlen hnames
      have hread : read_le symbuf (sizeof_Elf64_Sym * n) 4 = none := by
        simp only [read_le]
        rw [if_neg]
        rw [hlen]; omega
      simp only [h, record_size, sym_at, if_true]
      refine ⟨hread, ?_⟩
      have e : symtab.shdr.sh_size + 1 = (sizeof_Elf64_Sym * n - n + 1) + 1 + n := by
        rw [hsize]; simp only [sizeof_Elf64_Sym]; omega
      rw [e, symtab_loop_stops symtab.shdr.sh_size sizeof_Elf64_Sym _
        (fun i => if names i ≠ [] then sym_line ELFCLASS64 (Elf64_Sym_at symbuf i) (names i)
          else "") n _ _ _ (by simp only [sym_step64, hread]) (by rw [hsize]; omega)
        (by omega) (by simp only [sizeof_Elf64_Sym] at hint; omega)]
      · rw [concat_all_filter (fun i => names i ≠ [])]
      · intro i hi
        apply sym_step64_eq _ _ _ _ _ (hnames i hi)
        rw [hlen]
        have h7 : sizeof_Elf64_Sym * (i + 1) ≤ sizeof_Elf64_Sym * n := Nat.mul_le_mul_left _ hi
        rw [Nat.mul_add, Nat.mul_one] at h7
        omega
    · rw [h] at hsize hint hlen hnames
      have hc : ¬ (ELFCLASS32 = ELFCLASS64) := by decide
      simp only [record_size, sym_at, hc, if_false] at hsize hint hlen hnames
      have hread : read_le symbuf (sizeof_Elf32_Sym * n) 4 = none := by
        simp only [read_le]
        rw [if_neg]
        rw [hlen]; omega
      simp only [h, record_size, sym_at, hc, if_false, if_true]
      refine ⟨hread, ?_⟩
      have e : symtab.shdr.sh_size + 1 = (sizeof_Elf32_Sym * n - n + 1) + 1 + n := by
        rw [hsize]; simp only [sizeof_Elf32_Sym]; omega
      rw [e, symtab_loop_stops symtab.shdr.sh_size sizeof_Elf32_Sym _
        (fun i => if names i ≠ [] then sym_line ELFCLASS32 (Elf32_Sym_at symbuf i) (names i)
          else "") n _ _ _ (by simp only [sym_step32, hread]) (by rw [hsize]; omega)
        (by omega) (by simp only [sizeof_Elf32_Sym] at hint; omega)]
      · rw [concat_all_filter (fun i => names i ≠ [])]
      · intro i hi
        apply sym_step32_eq _ _ _ _ _ (hnames i hi)
        rw [hlen]
        have h7 : sizeof_Elf32_Sym * (i + 1) ≤ sizeof_Elf32_Sym * n := Nat.mul_le_mul_left _ hi
        rw [Nat.mul_add, Nat.mul_one] at h7
        omega
  · intro hdata
    simp only [print_symtab, hoff, Option.bind, print_records]
    rw [hsize] at hint
    rcases hcls with h | h
    · rw [h] at hsize hint
      simp only [record_size, if_true] at hsize hint
      simp only [h, if_true]
      have hk := symtab_loop_undefined symtab.shdr.sh_size sizeof_Elf64_Sym
        (sym_step64 symtab.data ((gelf_offscn input stringtabIndex).bind (fun scn => scn.data)))
        n 0 (symtab.shdr.sh_size + 1) (out ++ HEADER)
        (by rw [hsize]; simp only [sizeof_Elf64_Sym]; omega)
        (by rw [hsize]; simp)
        (by simp only [Nat.zero_add]; omega)
        (by simp only [sizeof_Elf64_Sym] at hint; omega)
        (by
          cases hd : symtab.data with
          | none => simp [sym_step64]
          | some symbuf =>
            have hl := hdata symbuf hd
            cases hs : (gelf_offscn input stringtabIndex).bind (fun scn => scn.data) with
            | none => simp [sym_step64]
            | some strbuf =>
              have hr : read_le symbuf (sizeof_Elf64_Sym * (0 + n)) 4 = none := by
                simp only [read_le]
                rw [if_neg]
                rw [hl, hsize]; simp only [sizeof_Elf64_Sym]; omega
              simp only [sym_step64, hr])
      simpa [Option.bind] using hk
    · rw [h] at hsize hint
      have hc : ¬ (ELFCLASS32 = ELFCLASS64) := by decide
      simp only [record_size, hc, if_false] at hsize hint
      simp only [h, hc, if_false, if_true]
      have hk := symtab_loop_undefined symtab.shdr.sh_size sizeof_Elf32_Sym
        (sym_step32 symtab.data ((gelf_offscn input stringtabIndex).bind (fun scn => scn.data)))
        n 0 (symtab.shdr.sh_size + 1) (out ++ HEADER)
        (by rw [hsize]; simp only [sizeof_Elf32_Sym]; omega)
        (by rw [hsize]; simp)
        (by simp only [Nat.zero_add]; omega)
        (by simp only [sizeof_Elf32_Sym] at hint; omega)
        (by
          cases hd : symtab.data with
          | none => simp [sym_step32]
          | some symbuf =>
            have hl := hdata symbuf hd
            cases hs : (gelf_offscn input stringtabIndex).bind (fun scn => scn.data) with
            | none => simp [sym_step32]
            | some strbuf =>
              have hr : read_le symbuf (sizeof_Elf32_Sym * (0 + n)) 4 = none := by
                simp only [read_le]
                rw [if_neg]
                rw [hl, hsize]; simp only [sizeof_Elf32_Sym]; omega
              simp only [sym_step32, hr])
      simpa [Option.bind] using hk

/-- Witness of C2 amended: a 64-bit `.symtab` of size 25 for which libelf
gives no data, and a section of plain bytes named `.symtab` of size 25. -/
theorem print_symtab_truncated_witness :
    print_symtab (sample_elf ELFCLASS64 25 none foo_strtab) 64 2048 "" =
      Outcome.undefined HEADER ∧
    print_symtab (raw_symtab_elf ELFCLASS64 25 (some (foo_symtab.take 25)) foo_strtab)
        64 2048 "" =
      Outcome.undefined (HEADER ++ "0000000000401000    0    2    8    foo   \n") :=
  ⟨(print_symtab_truncated (sample_elf ELFCLASS64 25 none foo_strtab)
      64 2048 1 ⟨⟨1, 2, 64, 25⟩, none⟩ "" (by decide) (by decide) (by decide) (by decide)).1 rfl,
    ((print_symtab_truncated
      (raw_symtab_elf ELFCLASS64 25 (some (foo_symtab.take 25)) foo_strtab)
      64 2048 1 ⟨⟨1, SHT_PROGBITS, 64, 25⟩, some (foo_symtab.take 25)⟩ "" (by decide)
      (by decide) (by decide) (by decide)).2.1 (foo_symtab.take 25) foo_strtab
      (fun _ => c_str "foo") rfl (by decide) (by decide)
      (by
        intro i hi
        have h0 : i = 0 := by omega
        subst h0
        decide)).2⟩

/-- C9, as the claim states it, fails: an image, 64-bit or 32-bit, in which
`.strtab` and `.symtab` are found and `.symtab` has size 0 gets the header
line on `stdout`, not an empty output; the status is 0. -/
theorem empty_symtab_counterexample :
    main 2 3 (some (sample_elf ELFCLASS64 0 (some []) foo_strtab)) "" =
      ProcessResult.exit "      Value       Bind Type Size           Name\n" 0 ∧
    main 2 3 (some (sample_elf ELFCLASS32 0 (some []) foo_strtab)) "" =
      ProcessResult.exit "      Value       Bind Type Size           Name\n" 0 ∧
    main 2 3 (some (sample_elf ELFCLASS64 0 (some []) foo_strtab)) "" ≠
      ProcessResult.exit "" 0 := by
  decide

/-- C9, amended: for every image, 64-bit or 32-bit, in which `.strtab` and
`.symtab` are both found and the section that the lookup by the file offset
of `.symtab` gives has size 0, the program writes the header line and nothing
else, and returns 0. -/
theorem main_empty_symtab (argc fd : Int) (elf : Elf) (errmsg : String)
    (strtabIndex symtabOffset : Nat) (symtab : Elf_Scn)
    (hargc : 2 ≤ argc) (hfd : fd ≠ -1)
    (hcls : elf.ei_class = ELFCLASS64 ∨ elf.ei_class = ELFCLASS32)
    (hstr : fetch_section elf (some (c_str ".strtab")) = some strtabIndex)
    (hstrfound : strtabIndex ≠ NOT_FOUND)
    (hsym : fetch_section elf (some (c_str ".symtab")) = some symtabOffset)
    (hsymfound : symtabOffset ≠ NOT_FOUND)
    (hoff : gelf_offscn elf symtabOffset = some symtab)
    (hsize : symtab.shdr.sh_size = 0) :
    main argc fd (some elf) errmsg = ProcessResult.exit HEADER 0 := by
  have h1 : ¬ (argc < 2) := by omega
  have hp : print_symtab elf symtabOffset strtabIndex "" = Outcome.done HEADER := by
    simp only [print_symtab, hoff, Option.bind, print_records, hsize]
    rcases hcls with h | h
    · simp only [h, if_true, symtab_loop]
      simp
    · have hc : ¬ (ELFCLASS32 = ELFCLASS64) := by decide
      simp only [h, hc, if_false, if_true, symtab_loop]
      simp
  simp only [main, check_args, h1, if_false, open_file, hfd, hstr, hstrfound, hsym, hsymfound,
    hp]

/-- Witness of C9 amended: the sample image with an empty `.symtab`. -/
theorem main_empty_symtab_witness :
    main 2 3 (some (sample_elf ELFCLASS64 0 (some []) foo_strtab)) "" =
      ProcessResult.exit HEADER 0 :=
  main_empty_symtab 2 3 (sample_elf ELFCLASS64 0 (some []) foo_strtab) "" 2048 64
    ⟨⟨1, 2, 64, 0⟩, some []⟩ (by decide) (by decide) (by decide) (by decide) (by decide)
    (by decide) (by decide) (by decide) rfl

/-- The line of a record whose value and size are below `2 ^ 32`, in both
branches: the value in hexadecimal padded to 16 or 8 digits, the binding,
the type and the size in decimal, the name, with the spacing of the format. -/
theorem report_line_in_range (st_value st_info st_size : Nat) (name : CStr)
    (hv : st_value < 2 ^ 32) (hs : st_size < 2 ^ 32) (hb : st_info < 256) :
    line64 st_value st_info st_size name =
      hex_padded 16 st_value ++ "    " ++ decimal (st_info / 16) ++ "    " ++
        decimal (st_info % 16) ++ "    " ++ decimal st_size ++ "    " ++ fmt_s name ++ "   \n" ∧
    line32 st_value st_info st_size name =
      hex_padded 8 st_value ++ "    " ++ decimal (st_info / 16) ++ "    " ++
        decimal (st_info % 16) ++ "    " ++ decimal st_size ++ "    " ++ fmt_s name ++ "   \n" := by
  have h1 : ELF_ST_BIND st_info = st_info / 16 := by
    simp only [ELF_ST_BIND, Nat.mod_eq_of_lt hb, Nat.shiftRight_eq_div_pow]
  have h2 : ELF_ST_TYPE st_info = st_info % 16 := by
    have h := Nat.and_pow_two_sub_one_eq_mod st_info 4
    simpa [ELF_ST_TYPE] using h
  have h3 : st_info / 16 % 2 ^ 32 = st_info / 16 := Nat.mod_eq_of_lt (by omega)
  have h4 : st_info % 16 % 2 ^ 32 = st_info % 16 := Nat.mod_eq_of_lt (by omega)
  simp only [line64, line32, fmt_x, fmt_u, hex_padded, decimal, h1, h2, h3, h4,
    Nat.mod_eq_of_lt hv, Nat.mod_eq_of_lt hs, and_self]

/-- A field of `n` bytes is below `256 ^ n`. -/
theorem field_lt (d_buf : List UInt8) (offset n : Nat) : field d_buf offset n < 256 ^ n := by
  have hgen : ∀ l : List UInt8, le_value l < 256 ^ l.length := by
    intro l
    induction l with
    | nil => simp [le_value]
    | cons b rest ih =>
      have hb : b.toNat < 256 := UInt8.toNat_lt_size b
      simp only [le_value, List.length_cons, pow_succ]
      nlinarith
  have h := hgen ((d_buf.drop offset).take n)
  have hl : ((d_buf.drop offset).take n).length ≤ n := by
    rw [List.length_take]; exact Nat.min_le_left _ _
  have hp : 256 ^ ((d_buf.drop offset).take n).length ≤ 256 ^ n :=
    Nat.pow_le_pow_right (by decide) hl
  unfold field
  omega

/-- The info byte of a record is in 0..255, and the value and the size of a
32-bit record are below `2 ^ 32`: the 32-bit branch prints them in full. -/
theorem sym_fields_range (symbuf : List UInt8) (index : Nat) :
    (Elf64_Sym_at symbuf index).st_info < 256 ∧
    (Elf32_Sym_at symbuf index).st_info < 256 ∧
    (Elf32_Sym_at symbuf index).st_value < 2 ^ 32 ∧
    (Elf32_Sym_at symbuf index).st_size < 2 ^ 32 := by
  refine ⟨?_, ?_, ?_, ?_⟩
  · simpa [Elf64_Sym_at] using field_lt symbuf (sizeof_Elf64_Sym * index + 4) 1
  · simpa [Elf32_Sym_at] using field_lt symbuf (sizeof_Elf32_Sym * index + 12) 1
  · have h := field_lt symbuf (sizeof_Elf32_Sym * index + 4) 4
    have e : (256 : Nat) ^ 4 = 2 ^ 32 := by norm_num
    rw [e] at h
    simpa [Elf32_Sym_at] using h
  · have h := field_lt symbuf (sizeof_Elf32_Sym * index + 8) 4
    have e : (256 : Nat) ^ 4 = 2 ^ 32 := by norm_num
    rw [e] at h
    simpa [Elf32_Sym_at] using h

end CdaProj1
